import Mathlib

/-!
Shallow embedding of the openshift-pod-watcher repository (src/src/*.py):
the resource-quantity parser (`utils.parse_openshift_resource`), the durable
store (`db.PodDatabase`), the resource request calculator
(`watcher.effective_pod_requests`), end-time resolution
(`watcher.get_pod_finished_time`), startup reconciliation
(`watcher.startup_reconciliation`) and the streaming event loop
(`watcher.watch_loop`).

Modelling conventions: timestamps are `Int` (ISO-8601 formatting of a UTC
instant is order- and equality-faithful, so it is dropped); resource
quantities are `ℚ` (Python mixes int and float here; all values arising are
exact decimals); Python `None` is `Option.none`; code that can raise returns
`Except String`; Python sets of uids are modelled as `List String` with
membership-based operations (iteration order of a Python set is immaterial
below because every loop body only touches the element's own key).
-/

namespace PodWatcher

instance {ε α : Type} [DecidableEq ε] [DecidableEq α] : DecidableEq (Except ε α) := by
  intro a b
  cases a <;> cases b
  case error.error e1 e2 => exact decidable_of_iff (e1 = e2) (by simp)
  case error.ok e1 a2 => exact isFalse (by simp)
  case ok.error a1 e2 => exact isFalse (by simp)
  case ok.ok a1 a2 => exact decidable_of_iff (a1 = a2) (by simp)

/-! ## Configuration (src/src/config.py) -/

def IGNORED_NAMESPACES : List String :=
  ["openshift", "kube-system", "kube-public", "kube-node-lease", "default",
   "istio-system", "openshift-marketplace", "nvidia-gpu-operator",
   "open-cluster-management-agent-addon", "open-cluster-management-agent"]

def IGNORED_NAMESPACE_PREFIXES : List String := ["openshift-", "kube-"]

def TERMINAL_PHASES : List String := ["Succeeded", "Failed"]

def STARTING_PHASES : List String := ["Pending", "Running"]

/-- Membership of a string in a list, as a Bool (Python `in` on a set). -/
def memB (u : String) (l : List String) : Bool :=
  l.any (fun v => decide (v = u))

/-- Python `set.add`. -/
def addId (l : List String) (u : String) : List String :=
  if memB u l then l else l ++ [u]

/-- Python `set.discard`. -/
def removeId (l : List String) (u : String) : List String :=
  l.filter (fun v => !(decide (v = u)))

/-- `phase in PHASES` where `phase` may be Python `None`. -/
def phaseIn (p : Option String) (l : List String) : Bool :=
  match p with
  | some s => memB s l
  | none => false

/-- `ns in IGNORED_NAMESPACES or ns.startswith(IGNORED_NAMESPACE_PREFIXES)`
(watcher.py lines 122 and 192); the prefix test is on the character
sequences. -/
def ignoredNs (ns : String) : Bool :=
  memB ns IGNORED_NAMESPACES
    || IGNORED_NAMESPACE_PREFIXES.any (fun p => p.data.isPrefixOf ns.data)

/-! ## Resource-quantity parser (src/src/utils.py, `parse_openshift_resource`)

The Python code runs `re.search` with pattern `([0-9]+)(m|Ki|Mi|Gi|Ti|Pi|Ei|K|M|G|T|P|E)?`.
`re.search` finds the leftmost match, i.e. the match starting at the first
digit of the string; the digit group is greedy, and the optional unit group
tries the alternatives in the pattern order.  Since no two-character
alternative begins with a lowercase `m`, and every two-character alternative
precedes its own one-character prefix in the alternation, this is equivalent
to: try the two-character units first, then the one-character ones. -/

def digitsToNat (ds : List Char) : Nat :=
  ds.foldl (fun a c => 10 * a + (c.toNat - 48)) 0

def twoCharUnits : List String := ["Ki", "Mi", "Gi", "Ti", "Pi", "Ei"]

def oneCharUnits : List String := ["m", "K", "M", "G", "T", "P", "E"]

def suffixMult (u : String) : ℚ :=
  match u with
  | "Ki" => 2 ^ 10
  | "Mi" => 2 ^ 20
  | "Gi" => 2 ^ 30
  | "Ti" => 2 ^ 40
  | "Pi" => 2 ^ 50
  | "Ei" => 2 ^ 60
  | "m" => 1 / 1000
  | "K" => 10 ^ 3
  | "M" => 10 ^ 6
  | "G" => 10 ^ 9
  | "T" => 10 ^ 12
  | "P" => 10 ^ 15
  | "E" => 10 ^ 18
  | _ => 1

/-- The optional unit group, matched at the position right after the digit
run (`result.groups()[1]`). -/
def unitAt (cs : List Char) : Option String :=
  match cs with
  | c1 :: c2 :: _ =>
    if memB (String.mk [c1, c2]) twoCharUnits then some (String.mk [c1, c2])
    else if memB (String.mk [c1]) oneCharUnits then some (String.mk [c1])
    else none
  | [c1] => if memB (String.mk [c1]) oneCharUnits then some (String.mk [c1]) else none
  | [] => none

/-- `re.search` for the pattern: scan to the first digit, return the maximal
digit run there together with the remaining characters. -/
def reSearch : List Char → Option (List Char × List Char)
  | [] => none
  | c :: cs =>
    if c.isDigit then some ((c :: cs).takeWhile Char.isDigit, (c :: cs).dropWhile Char.isDigit)
    else reSearch cs

/-- `utils.parse_openshift_resource`.  `none` models the integer default `0`
used by `dict.get(key, 0)` (falsy, so the function returns 0 for it). -/
def parse_openshift_resource (v : Option String) : Except String ℚ :=
  match v with
  | none => Except.ok 0
  | some s =>
    if s = "" || s = "0" then Except.ok 0
    else
      match reSearch s.data with
      | none => Except.error ("Unable to parse resource_value = " ++ s)
      | some (run, rest) =>
        match unitAt rest with
        | some u => Except.ok ((digitsToNat run : ℚ) * suffixMult u)
        | none => Except.ok (digitsToNat run : ℚ)

/-! ## Python `int()` (used for main-container gpu requests in
`effective_pod_requests`): optional surrounding whitespace, optional sign,
then digits possibly grouped by single underscores. -/

def isPySpace (c : Char) : Bool :=
  c = ' ' || c = '\t' || c = '\n' || c = '\r' || c = '\x0b' || c = '\x0c'

/-- After a leading digit: `(digit | _ digit)*`, collecting the digits. -/
def pyDigitsRest : List Char → Option (List Char)
  | [] => some []
  | '_' :: c :: rest => if c.isDigit then (pyDigitsRest rest).map (fun ds => c :: ds) else none
  | c :: rest => if c.isDigit then (pyDigitsRest rest).map (fun ds => c :: ds) else none

def pyBody : List Char → Option Nat
  | [] => none
  | c :: tail =>
    if c.isDigit then (pyDigitsRest tail).map (fun ds => digitsToNat (c :: ds)) else none

def pythonInt (s : String) : Except String Int :=
  let t := ((s.data.dropWhile isPySpace).reverse.dropWhile isPySpace).reverse
  let r : Option Int :=
    match t with
    | '+' :: rest => (pyBody rest).map (fun n => (n : Int))
    | '-' :: rest => (pyBody rest).map (fun n => -(n : Int))
    | rest => (pyBody rest).map (fun n => (n : Int))
  match r with
  | some n => Except.ok n
  | none => Except.error ("invalid literal for int with base 10: " ++ s)

/-- `int(res.get("nvidia.com/gpu", 0))`: absent key gives the integer 0. -/
def pythonIntOf (v : Option String) : Except String ℚ :=
  match v with
  | none => Except.ok 0
  | some s =>
    match pythonInt s with
    | Except.ok n => Except.ok (n : ℚ)
    | Except.error e => Except.error e

/-! ## Durable store (src/src/db.py, class `PodDatabase`)

The sqlite table `pods` is modelled as an association list keyed by the
primary key `uid`.  `INSERT OR IGNORE` is a no-op when the key exists;
`UPDATE ... WHERE uid = ?` rewrites the row if present and does nothing
otherwise. -/

structure DbRecord where
  nspace : String
  name : String
  node : Option String
  cpu : ℚ
  memory : ℚ
  gpu : ℚ
  start_time : Option Int
  end_time : Option Int
  end_time_guessed : Bool
deriving DecidableEq

abbrev Db := List (String × DbRecord)

def dbLookup (db : Db) (uid : String) : Option DbRecord :=
  (db.find? (fun kv => decide (kv.1 = uid))).map Prod.snd

def dbEnd (db : Db) (uid : String) : Option Int :=
  (dbLookup db uid).bind DbRecord.end_time

def dbKeys (db : Db) : List String := db.map Prod.fst

/-- `PodDatabase.insert_new_pod` (INSERT OR IGNORE; `end_time` NULL,
`end_time_guessed` DEFAULT 0). -/
def insert_new_pod (db : Db) (uid ns name : String) (node : Option String)
    (cpu mem gpu : ℚ) (start_time : Option Int) : Db :=
  if (dbLookup db uid).isSome then db
  else db ++ [(uid, ⟨ns, name, node, cpu, mem, gpu, start_time, none, false⟩)]

/-- `PodDatabase.update_pod_end_time` (UPDATE end_time, end_time_guessed WHERE uid). -/
def update_pod_end_time (db : Db) (uid : String) (end_time : Int) (guessed : Bool) : Db :=
  db.map (fun kv =>
    if kv.1 = uid then (kv.1, { kv.2 with end_time := some end_time, end_time_guessed := guessed })
    else kv)

/-- `PodDatabase.get_running_pods`: uids with NULL end_time. -/
def get_running_pods (db : Db) : List String :=
  (db.filter (fun kv => kv.2.end_time.isNone)).map Prod.fst

/-- `PodDatabase.get_finished_pods`: uids with non-NULL end_time. -/
def get_finished_pods (db : Db) : List String :=
  (db.filter (fun kv => kv.2.end_time.isSome)).map Prod.fst

/-- Modelled from the spec: `getRecord(id) → record|absent` (section 6).
`PodDatabase.get_pod_metadata` is called by `startup_reconciliation`
(watcher.py line 103) but the method itself is not present in src/src/db.py;
the spec contract for the durable store names `getRecord` as the lookup of a
single record by id, which over this table is the primary-key lookup. -/
def get_pod_metadata (db : Db) (uid : String) : Option DbRecord :=
  dbLookup db uid

/-! ## Cluster objects (the fields of the kubernetes pod objects that the
watcher reads, with `Option` for attributes that may be Python `None`). -/

structure Terminated where
  finished_at : Option Int
deriving DecidableEq

structure ContainerState where
  terminated : Option Terminated
deriving DecidableEq

structure ContainerStatus where
  state : Option ContainerState
deriving DecidableEq

structure ResourceRequirements where
  requests : Option (List (String × String))
deriving DecidableEq

structure ContainerSpec where
  resources : ResourceRequirements
deriving DecidableEq

structure PodSpec where
  init_containers : Option (List ContainerSpec)
  containers : Option (List ContainerSpec)
  node_name : Option String
deriving DecidableEq

structure PodStatus where
  phase : Option String
  start_time : Option Int
  container_statuses : Option (List ContainerStatus)
  init_container_statuses : Option (List ContainerStatus)
deriving DecidableEq

structure PodMetadata where
  uid : String
  name : String
  nspace : String
deriving DecidableEq

structure Pod where
  metadata : PodMetadata
  spec : Option PodSpec
  status : Option PodStatus
deriving DecidableEq

/-- `resources.requests.get(key)` / `res.get(key)`: dict lookup, `none` when
the key is absent. -/
def reqLookup (c : ContainerSpec) (key : String) : Option String :=
  (c.resources.requests.getD []).lookup key

/-- The init-container loop of `effective_pod_requests`: running maximum of
each resource, every quantity through `parse_openshift_resource` (including
the gpu one); `dict.get(key, 0)` yields the falsy integer 0 for absent keys,
modelled as `none`. -/
def initLoop : List ContainerSpec → ℚ × ℚ × ℚ → Except String (ℚ × ℚ × ℚ)
  | [], acc => Except.ok acc
  | c :: rest, (icpu, imem, igpu) =>
    match parse_openshift_resource (reqLookup c "cpu") with
    | Except.error e => Except.error e
    | Except.ok cv =>
      match parse_openshift_resource (reqLookup c "memory") with
      | Except.error e => Except.error e
      | Except.ok mv =>
        match parse_openshift_resource (reqLookup c "nvidia.com/gpu") with
        | Except.error e => Except.error e
        | Except.ok gv => initLoop rest (max icpu cv, max imem mv, max igpu gv)

/-- The main-container loop of `effective_pod_requests`: running sums.  cpu
and memory default to the string "0" and go through
`parse_openshift_resource`; the gpu value goes through Python `int()`
(`int(res.get("nvidia.com/gpu", 0))`). -/
def mainLoop : List ContainerSpec → ℚ × ℚ × ℚ → Except String (ℚ × ℚ × ℚ)
  | [], acc => Except.ok acc
  | c :: rest, (cpu, mem, gpu) =>
    match parse_openshift_resource (some ((reqLookup c "cpu").getD "0")) with
    | Except.error e => Except.error e
    | Except.ok cv =>
      match parse_openshift_resource (some ((reqLookup c "memory").getD "0")) with
      | Except.error e => Except.error e
      | Except.ok mv =>
        match pythonIntOf (reqLookup c "nvidia.com/gpu") with
        | Except.error e => Except.error e
        | Except.ok gv => mainLoop rest (cpu + cv, mem + mv, gpu + gv)

/-- `watcher.effective_pod_requests`.  A falsy (`None` or empty) container
list skips its loop, which coincides with folding over the empty list. -/
def effective_pod_requests (pod : Pod) : Except String (ℚ × ℚ × ℚ) :=
  match pod.spec with
  | none => Except.ok (0, 0, 0)
  | some sp =>
    match initLoop (sp.init_containers.getD []) (0, 0, 0) with
    | Except.error e => Except.error e
    | Except.ok (icpu, imem, igpu) =>
      match mainLoop (sp.containers.getD []) (0, 0, 0) with
      | Except.error e => Except.error e
      | Except.ok (cpu, mem, gpu) =>
        Except.ok (max cpu icpu, max mem imem, max gpu igpu)

/-! ## End-time resolution (watcher.py `get_pod_finished_time` and the
`end_time`/`guessed` computation shared by its call sites). -/

/-- The `finished_at` values collected from container and init-container
statuses: `getattr(cs.state, "terminated", None)` then `term.finished_at`. -/
def gatherFinishTimes (pod : Pod) : List Int :=
  match pod.status with
  | none => []
  | some st =>
    ((st.container_statuses.getD []) ++ (st.init_container_statuses.getD [])).filterMap
      (fun cs => (cs.state.bind ContainerState.terminated).bind Terminated.finished_at)

/-- `watcher.get_pod_finished_time`. -/
def get_pod_finished_time (pod : Pod) : Option Int :=
  match pod.status with
  | none => none
  | some st =>
    if phaseIn st.phase TERMINAL_PHASES = false then none
    else
      if ((st.container_statuses.getD []) ++ (st.init_container_statuses.getD [])).isEmpty
      then none
      else (gatherFinishTimes pod).max?

/-- The shared closing pattern: `end_time = get_pod_finished_time(pod);
guessed = False; if not end_time: end_time = now; guessed = True`. -/
def resolve_end_time (now : Int) (pod : Pod) : Int × Bool :=
  match get_pod_finished_time pod with
  | some t => (t, false)
  | none => (now, true)

/-! ## Stream coordinator (watcher.py `watch_loop`, event-processing body,
lines 184-245).

The state is the in-memory index (`seen_running`, `finished_pods`) plus the
durable store; `log` instruments every `pod_database.update_pod_end_time`
call made by the loop (uid, end time, guessed flag), so that claims about
"number of end-time writes" are writes actually issued, in order. -/

structure Event where
  etype : String
  pod : Pod
deriving DecidableEq

structure EndWrite where
  uid : String
  t : Int
  guessed : Bool
deriving DecidableEq

structure WatchState where
  db : Db
  seen_running : List String
  finished_pods : List String
  log : List EndWrite
deriving DecidableEq

/-- One iteration of the `for event in w.stream(...)` body.  An
`Except.error` models a raised exception (only `effective_pod_requests` can
raise here), which the surrounding handler catches. -/
def process_event (now : Int) (st : WatchState) (ev : Event) : Except String WatchState :=
  let pod := ev.pod
  let ns := pod.metadata.nspace
  let name := pod.metadata.name
  let uid := pod.metadata.uid
  let phase := pod.status.bind PodStatus.phase
  let node := pod.spec.bind PodSpec.node_name
  if ignoredNs ns then Except.ok st
  else
    match effective_pod_requests pod with
    | Except.error e => Except.error e
    | Except.ok (cpu, mem, gpu) =>
      let start := pod.status.bind PodStatus.start_time
      if ((ev.etype == "ADDED" || ev.etype == "MODIFIED") && start.isSome && node.isSome
          && !(memB uid st.seen_running) && phaseIn phase STARTING_PHASES) then
        Except.ok { st with
          db := insert_new_pod st.db uid ns name node cpu mem gpu start,
          seen_running := addId st.seen_running uid }
      else if (ev.etype == "MODIFIED" && memB uid st.seen_running
          && phaseIn phase TERMINAL_PHASES) then
        let r := resolve_end_time now pod
        Except.ok { st with
          db := update_pod_end_time st.db uid r.1 r.2,
          seen_running := removeId st.seen_running uid,
          finished_pods := addId st.finished_pods uid,
          log := st.log ++ [⟨uid, r.1, r.2⟩] }
      else if (ev.etype == "DELETED" && memB uid st.seen_running) then
        Except.ok { st with
          db := update_pod_end_time st.db uid now true,
          seen_running := removeId st.seen_running uid,
          finished_pods := addId st.finished_pods uid,
          log := st.log ++ [⟨uid, now, true⟩] }
      else Except.ok st

/-- An event whose processing raises is caught by the loop-level handler:
the module state persists and the loop resubscribes. -/
def stepEvent (st : WatchState) (te : Int × Event) : WatchState :=
  match process_event te.1 st te.2 with
  | Except.ok st2 => st2
  | Except.error _ => st

/-- The stream loop over a sequence of received events, each paired with the
wall-clock instant at which it is processed. -/
def processEvents (evs : List (Int × Event)) (st : WatchState) : WatchState :=
  evs.foldl stepEvent st

/-! ## Startup reconciliation (watcher.py `startup_reconciliation`).

`now` is the single `now_utc_iso()` sample taken at line 96
(`guessed_end_time`).  The function returns the repaired index and store;
the snapshot resource version is an opaque passthrough and is omitted. -/

structure ReconState where
  db : Db
  seen_running : List String
  finished_pods : List String
deriving DecidableEq

/-- The body of the zombie loop (watcher.py lines 102-115) for one uid. -/
def process_zombie (now : Int) (st : ReconState) (uid : String) : ReconState :=
  match get_pod_metadata st.db uid with
  | none => st
  | some meta =>
    if meta.end_time.isSome then
      { st with seen_running := removeId st.seen_running uid,
                finished_pods := addId st.finished_pods uid }
    else
      { st with db := update_pod_end_time st.db uid now true,
                seen_running := removeId st.seen_running uid,
                finished_pods := addId st.finished_pods uid }

/-- The body of the backfill loop (watcher.py lines 120-167) for one
`(uid, pod)` entry of the cluster map; the loop re-reads the uid from
`pod.metadata.uid` (line 125). -/
def backfill_pod (now : Int) (st : ReconState) (kv : String × Pod) : Except String ReconState :=
  let pod := kv.2
  let ns := pod.metadata.nspace
  let uid := pod.metadata.uid
  if ignoredNs ns then Except.ok st
  else
    match effective_pod_requests pod with
    | Except.error e => Except.error e
    | Except.ok (cpu, mem, gpu) =>
      let phase := pod.status.bind PodStatus.phase
      let node := pod.spec.bind PodSpec.node_name
      let start := pod.status.bind PodStatus.start_time
      if (phaseIn phase TERMINAL_PHASES && !(memB uid st.finished_pods)) then
        if memB uid st.seen_running then
          let r := resolve_end_time now pod
          Except.ok { st with
            db := update_pod_end_time st.db uid r.1 r.2,
            seen_running := removeId st.seen_running uid,
            finished_pods := addId st.finished_pods uid }
        else
          match start with
          | none => Except.ok st
          | some s =>
            let r := resolve_end_time now pod
            Except.ok { st with
              db := update_pod_end_time
                (insert_new_pod st.db uid ns pod.metadata.name node cpu mem gpu (some s))
                uid r.1 r.2,
              finished_pods := addId st.finished_pods uid }
      else Except.ok st

/-- Python dict insertion: overwriting an existing key keeps its position. -/
def dictInsert (m : List (String × Pod)) (k : String) (v : Pod) : List (String × Pod) :=
  if m.any (fun kv => decide (kv.1 = k)) then
    m.map (fun kv => if kv.1 = k then (k, v) else kv)
  else m ++ [(k, v)]

/-- `{pod.metadata.uid: pod for pod in all_pods_list.items}`. -/
def clusterMap (pods : List Pod) : List (String × Pod) :=
  pods.foldl (fun m p => dictInsert m p.metadata.uid p) []

/-- `watcher.startup_reconciliation` on a full snapshot listing. -/
def startup_reconciliation (now : Int) (snapshot : List Pod) (db : Db) :
    Except String ReconState :=
  let cluster := clusterMap snapshot
  let cluster_uids := cluster.map Prod.fst
  let seen := get_running_pods db
  let fin := get_finished_pods db
  let zombies := seen.filter (fun u => !(memB u cluster_uids))
  let st1 := zombies.foldl (process_zombie now) ⟨db, seen, fin⟩
  cluster.foldlM (backfill_pod now) st1

/-! ## Watch-loop failure handling (watcher.py lines 246-256). -/

inductive StreamError
  | apiException (status : Int)
  | otherError
deriving DecidableEq

inductive LoopOutcome
  | resubscribe (resource_version : String)
  | fatal
deriving DecidableEq

/-- What the `except` clauses of `watch_loop` decide for a raised feed
error: an `ApiException` with status 410 or 504 resets the resource version
and continues; any other `ApiException` is re-raised (which nothing above
the loop catches, terminating it); any other exception resets the resource
version and continues. -/
def handle_stream_error (e : StreamError) : LoopOutcome :=
  match e with
  | StreamError.apiException status =>
    if status = 410 || status = 504 then LoopOutcome.resubscribe "" else LoopOutcome.fatal
  | StreamError.otherError => LoopOutcome.resubscribe ""

/-! ## Concrete fixtures used by witnesses and counterexamples. -/

/-- A pod in a tracked namespace, phase Running, with a node and start time. -/
def podRunning : Pod :=
  { metadata := ⟨"u1", "p1", "demo"⟩,
    spec := some ⟨none, none, some "node-a"⟩,
    status := some ⟨some "Running", some 100, none, none⟩ }

/-- The same pod reported Succeeded with a container terminated at 200. -/
def podDone200 : Pod :=
  { metadata := ⟨"u1", "p1", "demo"⟩,
    spec := some ⟨none, none, some "node-a"⟩,
    status := some ⟨some "Succeeded", some 100, some [⟨some ⟨some ⟨some 200⟩⟩⟩], none⟩ }

/-- The same pod reported Succeeded with a container terminated at 300. -/
def podDone300 : Pod :=
  { metadata := ⟨"u1", "p1", "demo"⟩,
    spec := some ⟨none, none, some "node-a"⟩,
    status := some ⟨some "Succeeded", some 100, some [⟨some ⟨some ⟨some 300⟩⟩⟩], none⟩ }

/-- The event sequence of the C1 counterexample: a duplicate redelivery of
the Running and Succeeded transitions after the pod has already settled. -/
def doubleBillEvents : List (Int × Event) :=
  [(10, ⟨"MODIFIED", podRunning⟩), (11, ⟨"MODIFIED", podDone200⟩),
   (12, ⟨"MODIFIED", podRunning⟩), (13, ⟨"MODIFIED", podDone300⟩)]

def emptyWatchState : WatchState := ⟨[], [], [], []⟩

/-- A pod with one init container requesting cpu 2 and one main container
requesting cpu 250m and one gpu. -/
def podRequests : Pod :=
  { metadata := ⟨"u9", "p9", "demo"⟩,
    spec := some ⟨some [⟨⟨some [("cpu", "2")]⟩⟩],
                  some [⟨⟨some [("cpu", "250m"), ("nvidia.com/gpu", "1")]⟩⟩],
                  some "n"⟩,
    status := none }

/-- A pod whose main container carries a suffixed accelerator quantity. -/
def podGpuKi : Pod :=
  { metadata := ⟨"u8", "p8", "demo"⟩,
    spec := some ⟨none, some [⟨⟨some [("nvidia.com/gpu", "2Ki")]⟩⟩], none⟩,
    status := none }

/-- A terminal pod carrying no start time (cannot be backfilled). -/
def podFailedNoStart : Pod :=
  { metadata := ⟨"x1", "px", "demo"⟩, spec := none,
    status := some ⟨some "Failed", none, none, none⟩ }

/-- A terminal pod with a start time at 7 (a true backfill candidate). -/
def podFailedStart7 : Pod :=
  { metadata := ⟨"x2", "px2", "demo"⟩, spec := none,
    status := some ⟨some "Failed", some 7, none, none⟩ }

/-- A store holding one open record z1 in a tracked namespace. -/
def dbOpenZ : Db := [("z1", ⟨"demo", "pz", some "n", 0, 0, 0, some 5, none, false⟩)]

/-- The state reconciliation returns on `dbOpenZ` and `[podFailedStart7]` at
instant 50: z1 closed as a zombie, x2 backfilled and closed. -/
def reconOutW : ReconState :=
  ⟨[("z1", ⟨"demo", "pz", some "n", 0, 0, 0, some 5, some 50, true⟩),
    ("x2", ⟨"demo", "px2", none, 0, 0, 0, some 7, some 50, true⟩)],
   [], ["z1", "x2"]⟩

/-- The state reconciliation returns on `dbOpenZ` and the empty snapshot at
instant 50: z1 closed as a zombie. -/
def reconOutZ : ReconState :=
  ⟨[("z1", ⟨"demo", "pz", some "n", 0, 0, 0, some 5, some 50, true⟩)], [], ["z1"]⟩

/-- A reconciliation state whose record c1 is already closed at 9. -/
def stClosedC1 : ReconState :=
  ⟨[("c1", ⟨"demo", "pc", none, 0, 0, 0, some 1, some 9, false⟩)], ["c1"], []⟩

/-- A store holding one open record k1 in an ignored namespace. -/
def dbKube : Db := [("k1", ⟨"kube-system", "pk", some "n", 0, 0, 0, some 3, none, false⟩)]

/-- The state reconciliation returns on `dbKube` and the empty snapshot at
instant 60: k1 closed as a zombie although its namespace is ignored. -/
def reconOutK : ReconState :=
  ⟨[("k1", ⟨"kube-system", "pk", some "n", 0, 0, 0, some 3, some 60, true⟩)], [], ["k1"]⟩

/-- A pod in an ignored (prefixed) namespace. -/
def podIgnoredNs : Pod :=
  { metadata := ⟨"i1", "pi", "openshift-monitoring"⟩, spec := none,
    status := some ⟨some "Running", some 2, none, none⟩ }

/-! ## Claim-side definitions (vocabulary used to state the claims) -/

/-- The multiplier of an optional unit suffix: 1 for the empty suffix,
otherwise the table of `parse_openshift_resource`. -/
def multOfSuffix (u : String) : ℚ := if u = "" then 1 else suffixMult u

/-- True when a character list does not begin with a digit. -/
def headNotDigit (l : List Char) : Bool :=
  match l with
  | [] => true
  | c :: _ => !c.isDigit

/-- An event that can (re-)enter the given uid into the billing index:
created-or-updated change kind with a starting phase. -/
def canStart (uid : String) (ev : Event) : Bool :=
  decide (ev.pod.metadata.uid = uid) && (ev.etype == "ADDED" || ev.etype == "MODIFIED")
    && phaseIn (ev.pod.status.bind PodStatus.phase) STARTING_PHASES

/-- An event whose processing can settle the given uid: a MODIFIED event
with terminal phase, or a DELETED event. -/
def settles (uid : String) (ev : Event) : Bool :=
  decide (ev.pod.metadata.uid = uid) &&
    ((ev.etype == "MODIFIED" && phaseIn (ev.pod.status.bind PodStatus.phase) TERMINAL_PHASES)
      || ev.etype == "DELETED")

def NoMoreStartsB (uid : String) (l : List Event) : Bool :=
  l.all (fun e => !canStart uid e)

/-- Per-uid delivery order of the feed (section 5 of the spec): once a
settling event for a uid has been delivered, no later event for that uid
carries a starting phase with a created-or-updated change kind. -/
def OrderedForUidB (uid : String) : List Event → Bool
  | [] => true
  | e :: rest => (!settles uid e || NoMoreStartsB uid rest) && OrderedForUidB uid rest

/-- The end-time writes issued for a given uid. -/
def writesFor (uid : String) (l : List EndWrite) : List EndWrite :=
  l.filter (fun w => decide (w.uid = uid))

/-- The end-time writes issued for a given uid that record a real
(non-estimated) terminal transition. -/
def realWritesFor (uid : String) (l : List EndWrite) : List EndWrite :=
  l.filter (fun w => decide (w.uid = uid) && !w.guessed)

/-- The parsed value of a container resource request under the
quantity-parsing contract, absent requests counting as zero. -/
def reqVal (c : ContainerSpec) (key : String) : ℚ :=
  (parse_openshift_resource (reqLookup c key)).toOption.getD 0

/-- The parsed value of a main-container accelerator request, which the code
routes through Python `int()`. -/
def gpuMainVal (c : ContainerSpec) : ℚ :=
  (pythonIntOf (reqLookup c "nvidia.com/gpu")).toOption.getD 0

/-- Largest single per-container value of a resource over a container list. -/
def maxReq (l : List ContainerSpec) (f : ContainerSpec → ℚ) : ℚ :=
  l.foldl (fun a c => max a (f c)) 0

/-- Sum of a resource over a container list. -/
def sumReq (l : List ContainerSpec) (f : ContainerSpec → ℚ) : ℚ :=
  l.foldl (fun a c => a + f c) 0

/-- A record exists for the uid and its billing window is closed. -/
def closedIn (db : Db) (uid : String) : Prop :=
  ∃ r, dbLookup db uid = some r ∧ r.end_time.isSome = true

/-- The zombies of a reconciliation pass: uids open in the store but absent
from the snapshot (same computation as inside `startup_reconciliation`). -/
def zombiesOf (db : Db) (snapshot : List Pod) : List String :=
  (get_running_pods db).filter (fun u => !(memB u ((clusterMap snapshot).map Prod.fst)))

/-- Invariant of the reconciliation pass relative to the initial store
`db0`: keys only grow, the billing set points at existing records, every
initially stored uid is tracked in one of the two sets, and every settled
uid has a closed record. -/
def ReconInv (db0 : Db) (st : ReconState) : Prop :=
  (∀ u, u ∈ dbKeys db0 → u ∈ dbKeys st.db) ∧
  (∀ u, u ∈ st.seen_running → u ∈ dbKeys st.db) ∧
  (∀ u, u ∈ dbKeys db0 → u ∈ st.seen_running ∨ u ∈ st.finished_pods) ∧
  (∀ u, u ∈ st.finished_pods → closedIn st.db u)

/-! ## Helper lemmas: set-as-list operations -/

theorem memB_iff {u : String} {l : List String} : memB u l = true ↔ u ∈ l := by
  simp [memB, List.any_eq_true]

theorem memB_eq_false_iff {u : String} {l : List String} : memB u l = false ↔ u ∉ l := by
  rw [← Bool.not_eq_true, not_iff_not, memB_iff]

theorem mem_addId {u v : String} {l : List String} : u ∈ addId l v ↔ u ∈ l ∨ u = v := by
  unfold addId
  by_cases h : memB v l
  · rw [if_pos h]
    have hv := memB_iff.mp h
    constructor
    · exact Or.inl
    · rintro (hu | rfl)
      · exact hu
      · exact hv
  · rw [if_neg h]
    simp [List.mem_append]

theorem mem_removeId {u v : String} {l : List String} : u ∈ removeId l v ↔ u ∈ l ∧ u ≠ v := by
  simp [removeId]

/-! ## Helper lemmas: the durable store -/

theorem dbLookup_nil {u : String} : dbLookup [] u = none := rfl

theorem dbLookup_cons {kv : String × DbRecord} {db : Db} {u : String} :
    dbLookup (kv :: db) u = if kv.1 = u then some kv.2 else dbLookup db u := by
  by_cases h : kv.1 = u <;> simp [dbLookup, List.find?, h]

theorem dbLookup_append_some {db1 db2 : Db} {u : String} {r : DbRecord}
    (h : dbLookup db1 u = some r) : dbLookup (db1 ++ db2) u = some r := by
  induction db1 with
  | nil => simp [dbLookup_nil] at h
  | cons kv rest ih =>
    rw [List.cons_append, dbLookup_cons]
    rw [dbLookup_cons] at h
    by_cases hk : kv.1 = u
    · simpa [hk] using h
    · rw [if_neg hk] at h ⊢; exact ih h

theorem dbLookup_append_none {db1 db2 : Db} {u : String}
    (h : dbLookup db1 u = none) : dbLookup (db1 ++ db2) u = dbLookup db2 u := by
  induction db1 with
  | nil => simp
  | cons kv rest ih =>
    rw [List.cons_append, dbLookup_cons]
    rw [dbLookup_cons] at h
    by_cases hk : kv.1 = u
    · rw [if_pos hk] at h; cases h
    · rw [if_neg hk] at h ⊢; exact ih h

theorem dbLookup_isSome_of_mem_keys {db : Db} {u : String} (h : u ∈ dbKeys db) :
    (dbLookup db u).isSome := by
  induction db with
  | nil => simp [dbKeys] at h
  | cons kv rest ih =>
    rw [dbLookup_cons]
    by_cases hk : kv.1 = u
    · simp [hk]
    · rw [if_neg hk]
      rcases List.mem_cons.mp h with h1 | h1
      · exact absurd h1.symm hk
      · exact ih h1

theorem mem_keys_of_dbLookup {db : Db} {u : String} {r : DbRecord}
    (h : dbLookup db u = some r) : u ∈ dbKeys db := by
  induction db with
  | nil => simp [dbLookup_nil] at h
  | cons kv rest ih =>
    rw [dbLookup_cons] at h
    by_cases hk : kv.1 = u
    · exact List.mem_cons.mpr (Or.inl hk.symm)
    · rw [if_neg hk] at h
      exact List.mem_cons.mpr (Or.inr (ih h))

/-- A record already present survives any insert unchanged. -/
theorem dbLookup_insert {db : Db} {u : String} {r : DbRecord}
    (h : dbLookup db u = some r) (uid ns name : String) (node : Option String)
    (cpu mem gpu : ℚ) (st : Option Int) :
    dbLookup (insert_new_pod db uid ns name node cpu mem gpu st) u = some r := by
  unfold insert_new_pod
  split
  · exact h
  · exact dbLookup_append_some h

theorem dbLookup_insert_self_absent {db : Db} {uid : String}
    (h : dbLookup db uid = none) (ns name : String) (node : Option String)
    (cpu mem gpu : ℚ) (st : Option Int) :
    dbLookup (insert_new_pod db uid ns name node cpu mem gpu st) uid
      = some ⟨ns, name, node, cpu, mem, gpu, st, none, false⟩ := by
  unfold insert_new_pod
  rw [if_neg (by simp [h]), dbLookup_append_none h, dbLookup_cons, if_pos rfl]

theorem dbLookup_insert_other {db : Db} {u uid : String} (hne : uid ≠ u)
    (ns name : String) (node : Option String) (cpu mem gpu : ℚ) (st : Option Int) :
    dbLookup (insert_new_pod db uid ns name node cpu mem gpu st) u = dbLookup db u := by
  unfold insert_new_pod
  split
  · rfl
  · cases h : dbLookup db u with
    | some r => exact dbLookup_append_some h
    | none => rw [dbLookup_append_none h, dbLookup_cons, if_neg hne, dbLookup_nil]

theorem update_pod_end_time_cons {kv : String × DbRecord} {db : Db} {uid : String}
    {t : Int} {g : Bool} :
    update_pod_end_time (kv :: db) uid t g =
      (if kv.1 = uid then (kv.1, { kv.2 with end_time := some t, end_time_guessed := g }) else kv)
        :: update_pod_end_time db uid t g := by
  unfold update_pod_end_time
  rw [List.map_cons]

theorem dbLookup_update_self {db : Db} {u : String} {r : DbRecord}
    (h : dbLookup db u = some r) (t : Int) (g : Bool) :
    dbLookup (update_pod_end_time db u t g) u
      = some { r with end_time := some t, end_time_guessed := g } := by
  induction db with
  | nil => simp [dbLookup_nil] at h
  | cons kv rest ih =>
    rw [dbLookup_cons] at h
    rw [update_pod_end_time_cons]
    by_cases hk : kv.1 = u
    · rw [if_pos hk] at h
      cases h
      simp [dbLookup_cons, hk]
    · rw [if_neg hk] at h
      simp only [if_neg hk, dbLookup_cons]
      exact ih h

theorem dbLookup_update_none {db : Db} {u : String}
    (h : dbLookup db u = none) (t : Int) (g : Bool) :
    dbLookup (update_pod_end_time db u t g) u = none := by
  induction db with
  | nil => rfl
  | cons kv rest ih =>
    rw [dbLookup_cons] at h
    rw [update_pod_end_time_cons]
    by_cases hk : kv.1 = u
    · rw [if_pos hk] at h; cases h
    · rw [if_neg hk] at h
      simp only [if_neg hk, dbLookup_cons]
      exact ih h

theorem dbLookup_update_other {db : Db} {u uid : String} (hne : uid ≠ u) (t : Int) (g : Bool) :
    dbLookup (update_pod_end_time db uid t g) u = dbLookup db u := by
  induction db with
  | nil => rfl
  | cons kv rest ih =>
    rw [update_pod_end_time_cons]
    by_cases hk : kv.1 = uid
    · have hku : ¬ kv.1 = u := fun hc => hne (hk.symm.trans hc)
      rw [if_pos hk]
      simp only [dbLookup_cons, hku, if_false]
      simp only [ih]
    · rw [if_neg hk]
      simp only [dbLookup_cons, ih]

theorem dbKeys_update {db : Db} {uid : String} {t : Int} {g : Bool} :
    dbKeys (update_pod_end_time db uid t g) = dbKeys db := by
  unfold update_pod_end_time dbKeys
  rw [List.map_map]
  apply List.map_congr_left
  intro kv _
  by_cases hk : kv.1 = uid <;> simp [hk]

theorem dbKeys_insert_subset {db : Db} {uid ns name : String} {node : Option String}
    {cpu mem gpu : ℚ} {st : Option Int} :
    dbKeys db ⊆ dbKeys (insert_new_pod db uid ns name node cpu mem gpu st) := by
  unfold insert_new_pod
  split
  · exact fun a h => h
  · intro a h
    unfold dbKeys
    rw [List.map_append]
    exact List.mem_append.mpr (Or.inl h)

/-- Every key of the store is an open key or a finished key. -/
theorem mem_keys_iff_running_or_finished {db : Db} {u : String} :
    u ∈ dbKeys db ↔ u ∈ get_running_pods db ∨ u ∈ get_finished_pods db := by
  simp only [dbKeys, get_running_pods, get_finished_pods, List.mem_map, List.mem_filter]
  constructor
  · rintro ⟨kv, hkv, rfl⟩
    cases h : kv.2.end_time with
    | none => exact Or.inl ⟨kv, ⟨hkv, by simp [h]⟩, rfl⟩
    | some t => exact Or.inr ⟨kv, ⟨hkv, by simp [h]⟩, rfl⟩
  · rintro (⟨kv, ⟨hkv, _⟩, rfl⟩ | ⟨kv, ⟨hkv, _⟩, rfl⟩) <;> exact ⟨kv, hkv, rfl⟩

/-! ## Helper lemmas: fold combinators -/

theorem foldl_inv {α β : Type} (step : α → β → α) (I : α → Prop) (l : List β) (s : α)
    (h : ∀ s2 b, b ∈ l → I s2 → I (step s2 b)) (h0 : I s) : I (l.foldl step s) := by
  induction l generalizing s with
  | nil => exact h0
  | cons a l ih =>
    rw [List.foldl_cons]
    exact ih (step s a) (fun s2 b hb => h s2 b (List.mem_cons_of_mem a hb))
      (h s a (List.mem_cons_self a l) h0)

theorem foldl_forall {α β : Type} (step : α → β → α) (Q : β → α → Prop) (I : α → Prop)
    (l : List β) (s : α)
    (hI : ∀ s2 b, b ∈ l → I s2 → I (step s2 b))
    (hQ : ∀ s2 b, b ∈ l → I s2 → Q b (step s2 b))
    (hpres : ∀ s2 b b2, Q b s2 → Q b (step s2 b2))
    (h0 : I s) : ∀ b ∈ l, Q b (l.foldl step s) := by
  induction l generalizing s with
  | nil => intro b hb; cases hb
  | cons a l ih =>
    intro b hb
    rw [List.foldl_cons]
    rcases List.mem_cons.mp hb with rfl | hb2
    · exact foldl_inv step (Q b) l (step s b)
        (fun s2 b2 _ => hpres s2 b b2)
        (hQ s b (List.mem_cons_self b l) h0)
    · exact ih (step s a)
        (fun s2 b2 hb3 => hI s2 b2 (List.mem_cons_of_mem a hb3))
        (fun s2 b2 hb3 => hQ s2 b2 (List.mem_cons_of_mem a hb3))
        (hI s a (List.mem_cons_self a l) h0) b hb2

theorem foldlM_ok_inv {α β : Type} (step : α → β → Except String α) (I : α → Prop)
    (l : List β) (s : α) (out : α)
    (h : ∀ s2 b s3, b ∈ l → I s2 → step s2 b = Except.ok s3 → I s3)
    (h0 : I s) (hok : l.foldlM step s = Except.ok out) : I out := by
  induction l generalizing s with
  | nil => simp only [List.foldlM_nil, pure] at hok; cases hok; exact h0
  | cons a l ih =>
    rw [List.foldlM_cons] at hok
    cases hstep : step s a with
    | error e =>
      rw [hstep] at hok
      exact Except.noConfusion ((rfl : (Except.error e : Except String α) = _).trans hok)
    | ok s2 =>
      rw [hstep] at hok
      have hok2 : l.foldlM step s2 = Except.ok out := hok
      exact ih s2 (fun s3 b s4 hb => h s3 b s4 (List.mem_cons_of_mem a hb))
        (h s a s2 (List.mem_cons_self a l) h0 hstep) hok2

theorem foldlM_append_ok {α β : Type} (step : α → β → Except String α)
    (l1 l2 : List β) (s : α) (out : α)
    (hok : (l1 ++ l2).foldlM step s = Except.ok out) :
    ∃ mid, l1.foldlM step s = Except.ok mid ∧ l2.foldlM step mid = Except.ok out := by
  induction l1 generalizing s with
  | nil => exact ⟨s, rfl, hok⟩
  | cons a l ih =>
    rw [List.cons_append, List.foldlM_cons] at hok
    cases hstep : step s a with
    | error e =>
      rw [hstep] at hok
      exact Except.noConfusion ((rfl : (Except.error e : Except String α) = _).trans hok)
    | ok s2 =>
      rw [hstep] at hok
      have hok2 : (l ++ l2).foldlM step s2 = Except.ok out := hok
      obtain ⟨mid, h1, h2⟩ := ih s2 hok2
      refine ⟨mid, ?_, h2⟩
      rw [List.foldlM_cons, hstep]
      exact h1

/-! ## Helper lemmas: maximum of a list of timestamps -/

theorem max?_spec (l : List Int) (h : l ≠ []) :
    ∃ m, l.max? = some m ∧ m ∈ l ∧ ∀ t ∈ l, t ≤ m := by
  induction l with
  | nil => exact absurd rfl h
  | cons a l ih =>
    cases l with
    | nil => exact ⟨a, rfl, List.mem_singleton.mpr rfl, by simp⟩
    | cons b l2 =>
      obtain ⟨m, hm, hmem, hle⟩ := ih (by simp)
      refine ⟨max a m, ?_, ?_, ?_⟩
      · rw [List.max?_cons, hm]; rfl
      · rcases max_choice a m with hc | hc
        · rw [hc]; exact List.mem_cons_self a _
        · rw [hc]; exact List.mem_cons_of_mem a hmem
      · intro t ht
        rcases List.mem_cons.mp ht with rfl | ht2
        · exact le_max_left t m
        · exact le_trans (hle t ht2) (le_max_right a m)

theorem dbLookup_insert_self_isSome {db : Db} {uid : String} (ns name : String)
    (node : Option String) (cpu mem gpu : ℚ) (st : Option Int) :
    (dbLookup (insert_new_pod db uid ns name node cpu mem gpu st) uid).isSome := by
  cases h : dbLookup db uid with
  | some r => rw [dbLookup_insert h]; rfl
  | none => rw [dbLookup_insert_self_absent h]; rfl

theorem insert_noop_of_isSome {db : Db} {uid : String}
    (h : (dbLookup db uid).isSome) (ns name : String) (node : Option String)
    (cpu mem gpu : ℚ) (st : Option Int) :
    insert_new_pod db uid ns name node cpu mem gpu st = db := by
  unfold insert_new_pod
  rw [if_pos h]

/-- A terminal phase is never a starting phase. -/
theorem terminal_not_starting {p : Option String}
    (h : phaseIn p TERMINAL_PHASES = true) : phaseIn p STARTING_PHASES = false := by
  cases p with
  | none => simp [phaseIn] at h
  | some s =>
    simp only [phaseIn, memB, TERMINAL_PHASES, STARTING_PHASES, List.any_eq_true,
      decide_eq_true_eq] at h ⊢
    simp only [List.mem_cons, List.not_mem_nil, or_false] at h
    rcases h with ⟨v, hv, rfl⟩
    rcases hv with rfl | rfl <;> decide

/-! ## C9 -/

/-- C9: idempotent create.  Calling `insert_new_pod` a second time with an
id already present in the store (in particular, right after a first call
with that id) is a no-op: the store is left exactly as after the first call,
so no second record is created and the first record keeps its namespace,
name, node, resource and start-time fields, whatever arguments the second
call passes. -/
theorem C9_idempotent_create (db : Db) (uid ns name : String) (node : Option String)
    (cpu mem gpu : ℚ) (st : Option Int) (ns2 name2 : String) (node2 : Option String)
    (cpu2 mem2 gpu2 : ℚ) (st2 : Option Int) :
    insert_new_pod (insert_new_pod db uid ns name node cpu mem gpu st)
        uid ns2 name2 node2 cpu2 mem2 gpu2 st2
      = insert_new_pod db uid ns name node cpu mem gpu st :=
  insert_noop_of_isSome (dbLookup_insert_self_isSome ns name node cpu mem gpu st)
    ns2 name2 node2 cpu2 mem2 gpu2 st2

/-! ## C4 -/

/-- C4 (amended): feed-error handling of the stream loop.  An ApiException
with status 410 or 504, and any non-ApiException feed error, is absorbed:
the loop resets the resumption token to the empty string and resubscribes.
An ApiException with any other status, however, is re-raised and terminates
the loop — the coordinator is not unconditionally resilient. -/
theorem C4_stream_error_handling :
    handle_stream_error (StreamError.apiException 410) = LoopOutcome.resubscribe "" ∧
    handle_stream_error (StreamError.apiException 504) = LoopOutcome.resubscribe "" ∧
    handle_stream_error StreamError.otherError = LoopOutcome.resubscribe "" ∧
    (∀ s : Int, s ≠ 410 → s ≠ 504 →
      handle_stream_error (StreamError.apiException s) = LoopOutcome.fatal) := by
  refine ⟨rfl, rfl, rfl, ?_⟩
  intro s h410 h504
  simp [handle_stream_error, h410, h504]

/-- C4 witness: an ApiException with status 401 terminates the loop, while
410, 504 and non-API errors resubscribe. -/
theorem C4_stream_error_handling_witness :
    handle_stream_error (StreamError.apiException 401) = LoopOutcome.fatal ∧
    handle_stream_error (StreamError.apiException 410) = LoopOutcome.resubscribe "" :=
  ⟨C4_stream_error_handling.2.2.2 401 (by decide) (by decide),
   C4_stream_error_handling.1⟩

/-- C4 counterexample: the claim says every feed error other than shutdown
leads to log-reset-resubscribe; but an ApiException with status 403 is
re-raised, terminating the loop, not a resubscription. -/
theorem C4_counterexample :
    handle_stream_error (StreamError.apiException 403) = LoopOutcome.fatal ∧
    LoopOutcome.fatal ≠ LoopOutcome.resubscribe "" := by
  constructor
  · rfl
  · intro h
    cases h

/-! ## C3 -/

/-- C3 (amended): the Billing to Settled transition of the stream loop fires
only for change kind MODIFIED.  For an event in a tracked namespace whose
resource computation succeeds, whose instance id is in the billing index and
whose reported phase is terminal: if the change kind is MODIFIED the
classifier closes the record (writes the resolved end time, removes the id
from billing, adds it to settled); if the change kind is ADDED the event is
ignored and the state is unchanged. -/
theorem C3_billing_to_settled (now : Int) (st : WatchState) (ev : Event)
    (hns : ignoredNs ev.pod.metadata.nspace = false)
    (cpu mem gpu : ℚ) (heff : effective_pod_requests ev.pod = Except.ok (cpu, mem, gpu))
    (hseen : memB ev.pod.metadata.uid st.seen_running = true)
    (hph : phaseIn (ev.pod.status.bind PodStatus.phase) TERMINAL_PHASES = true) :
    (ev.etype = "MODIFIED" →
      process_event now st ev = Except.ok { st with
        db := update_pod_end_time st.db ev.pod.metadata.uid
          (resolve_end_time now ev.pod).1 (resolve_end_time now ev.pod).2,
        seen_running := removeId st.seen_running ev.pod.metadata.uid,
        finished_pods := addId st.finished_pods ev.pod.metadata.uid,
        log := st.log ++ [⟨ev.pod.metadata.uid, (resolve_end_time now ev.pod).1,
          (resolve_end_time now ev.pod).2⟩] }) ∧
    (ev.etype = "ADDED" → process_event now st ev = Except.ok st) := by
  have hstart := terminal_not_starting hph
  constructor
  · intro hety
    simp [process_event, hns, heff, hseen, hph, hstart, hety]
  · intro hety
    simp [process_event, hns, heff, hseen, hph, hstart, hety]

/-- C3 witness: a MODIFIED event for the billed pod u1 with terminal phase
Succeeded and container finish time 200 closes the record with end time 200
not guessed, empties billing and settles u1. -/
theorem C3_billing_to_settled_witness :
    (process_event 11
        ⟨[("u1", ⟨"demo", "p1", some "node-a", 0, 0, 0, some 100, none, false⟩)],
          ["u1"], [], []⟩
        ⟨"MODIFIED", podDone200⟩).map
      (fun st => (st.log, st.seen_running, st.finished_pods, dbEnd st.db "u1")) =
    Except.ok ([⟨"u1", 200, false⟩], [], ["u1"], some 200) := by
  have h := (C3_billing_to_settled 11
      ⟨[("u1", ⟨"demo", "p1", some "node-a", 0, 0, 0, some 100, none, false⟩)],
        ["u1"], [], []⟩
      ⟨"MODIFIED", podDone200⟩ (by decide) (max 0 0) (max 0 0) (max 0 0) rfl
      (by decide) (by decide)).1 rfl
  rw [h]
  decide

/-- C3 counterexample: the claim says the transition fires for change kind
created-or-updated, i.e. for ADDED as well; but an ADDED event for a billed
instance with terminal phase is ignored: no end-time write is issued, the id
stays in billing and the record stays open. -/
theorem C3_counterexample :
    (process_event 11
        ⟨[("u1", ⟨"demo", "p1", some "node-a", 0, 0, 0, some 100, none, false⟩)],
          ["u1"], [], []⟩
        ⟨"ADDED", podDone200⟩).map
      (fun st => (st.log, st.seen_running, st.finished_pods, dbEnd st.db "u1")) =
    Except.ok ([], ["u1"], [], none) := by decide

/-! ## C6 -/

/-- The guard structure of `get_pod_finished_time` collapses, for a terminal
pod, to the maximum of the collected finish times. -/
theorem get_pod_finished_time_eq_max {pod : Pod} {stt : PodStatus}
    (hst : pod.status = some stt)
    (hph : phaseIn stt.phase TERMINAL_PHASES = true) :
    get_pod_finished_time pod = (gatherFinishTimes pod).max? := by
  simp only [get_pod_finished_time, gatherFinishTimes, hst]
  rw [if_neg (by rw [hph]; simp)]
  by_cases hall : ((stt.container_statuses.getD []) ++ (stt.init_container_statuses.getD [])).isEmpty
  · rw [if_pos hall]
    rw [List.isEmpty_iff] at hall
    rw [hall]
    rfl
  · rw [if_neg hall]

/-- C6: end-time preference.  Whenever a billing window is closed from an
observed terminal instance (the shared `resolve_end_time` computation used
by the stream loop and both reconciliation closing paths), if any container
or init-container status carries a terminated timestamp, the end time
written is the latest such timestamp with the estimated flag false; only
when no terminated timestamp is available is the wall-clock time written
with the estimated flag true. -/
theorem C6_end_time_preference (pod : Pod) (stt : PodStatus) (now : Int)
    (hst : pod.status = some stt)
    (hph : phaseIn stt.phase TERMINAL_PHASES = true) :
    (gatherFinishTimes pod ≠ [] →
      ∃ m, resolve_end_time now pod = (m, false) ∧ m ∈ gatherFinishTimes pod ∧
        ∀ t ∈ gatherFinishTimes pod, t ≤ m) ∧
    (gatherFinishTimes pod = [] → resolve_end_time now pod = (now, true)) := by
  have hg := get_pod_finished_time_eq_max hst hph
  constructor
  · intro hne
    obtain ⟨m, hm, hmem, hle⟩ := max?_spec _ hne
    refine ⟨m, ?_, hmem, hle⟩
    unfold resolve_end_time
    rw [hg, hm]
  · intro hemp
    unfold resolve_end_time
    rw [hg, hemp]
    rfl

/-- C6 witness: for the terminal pod with a single container finished at
200, the resolved end time is 200 with the estimated flag false. -/
theorem C6_end_time_preference_witness :
    (gatherFinishTimes podDone200 ≠ [] →
      ∃ m, resolve_end_time 99 podDone200 = (m, false) ∧ m ∈ gatherFinishTimes podDone200 ∧
        ∀ t ∈ gatherFinishTimes podDone200, t ≤ m) ∧
    (gatherFinishTimes podDone200 = [] → resolve_end_time 99 podDone200 = (99, true)) :=
  C6_end_time_preference podDone200
    ⟨some "Succeeded", some 100, some [⟨some ⟨some ⟨some 200⟩⟩⟩], none⟩ 99 rfl (by decide)

/-! ## C7 -/

theorem takeWhile_append_all {l1 l2 : List Char} (h1 : ∀ c ∈ l1, c.isDigit = true)
    (h2 : headNotDigit l2 = true) :
    (l1 ++ l2).takeWhile Char.isDigit = l1 ∧ (l1 ++ l2).dropWhile Char.isDigit = l2 := by
  induction l1 with
  | nil =>
    cases l2 with
    | nil => exact ⟨rfl, rfl⟩
    | cons c t =>
      unfold headNotDigit at h2
      rw [Bool.not_eq_true'] at h2
      simp [List.takeWhile_cons, List.dropWhile_cons, h2]
  | cons a l ih =>
    have ha := h1 a (List.mem_cons_self a l)
    obtain ⟨iht, ihd⟩ := ih (fun c hc => h1 c (List.mem_cons_of_mem a hc))
    constructor
    · rw [List.cons_append, List.takeWhile_cons, ha]
      simp [iht]
    · rw [List.cons_append, List.dropWhile_cons, ha]
      simpa using ihd

theorem reSearch_eq_none {l : List Char} (h : ∀ c ∈ l, c.isDigit = false) :
    reSearch l = none := by
  induction l with
  | nil => rfl
  | cons c t ih =>
    unfold reSearch
    rw [if_neg (by simp [h c (List.mem_cons_self c t)])]
    exact ih (fun c2 hc => h c2 (List.mem_cons_of_mem c hc))

theorem reSearch_digit_head {c : Char} {cs : List Char} (h : c.isDigit = true) :
    reSearch (c :: cs) =
      some ((c :: cs).takeWhile Char.isDigit, (c :: cs).dropWhile Char.isDigit) := by
  unfold reSearch
  rw [if_pos h]

/-- C7 (amended): the resource-quantity parser.  Absent input and the
strings "" and "0" parse to 0.  A string that is exactly an integer
magnitude followed by an optional unit suffix (Ki Mi Gi Ti Pi Ei, K M G T P
E, or m, with the multipliers of `suffixMult`) parses to magnitude times
multiplier.  A string containing no digit at all raises a parse error.  (A
non-conforming string that does contain a digit does not raise: the parser
matches the first embedded magnitude-with-optional-suffix substring — see
the counterexample.) -/
theorem C7_resource_quantity_parsing :
    (parse_openshift_resource none = Except.ok 0 ∧
     parse_openshift_resource (some "") = Except.ok 0 ∧
     parse_openshift_resource (some "0") = Except.ok 0) ∧
    (∀ (ds : List Char) (u : String), ds ≠ [] → (∀ c ∈ ds, c.isDigit = true) →
      u ∈ ("" :: (twoCharUnits ++ oneCharUnits)) →
      parse_openshift_resource (some (String.mk (ds ++ u.data)))
        = Except.ok ((digitsToNat ds : ℚ) * multOfSuffix u)) ∧
    (∀ s : String, (∀ c ∈ s.data, c.isDigit = false) → s ≠ "" →
      parse_openshift_resource (some s)
        = Except.error ("Unable to parse resource_value = " ++ s)) := by
  have parse_some : ∀ s : String, parse_openshift_resource (some s) =
      if s = "" || s = "0" then Except.ok 0
      else match reSearch s.data with
        | none => Except.error ("Unable to parse resource_value = " ++ s)
        | some (run, rest) =>
          match unitAt rest with
          | some u => Except.ok ((digitsToNat run : ℚ) * suffixMult u)
          | none => Except.ok (digitsToNat run : ℚ) := fun s => rfl
  refine ⟨⟨rfl, rfl, rfl⟩, ?_, ?_⟩
  · intro ds u hds hdig hu
    have hufacts : headNotDigit u.data = true ∧
        unitAt u.data = (if u = "" then none else some u) := by
      rcases List.mem_cons.mp hu with rfl | hu2
      · constructor <;> decide
      · have hu3 : u ∈ ["Ki", "Mi", "Gi", "Ti", "Pi", "Ei", "m", "K", "M", "G", "T", "P", "E"] := by
          simpa [twoCharUnits, oneCharUnits] using hu2
        fin_cases hu3 <;> exact ⟨by decide, by decide⟩
    obtain ⟨hhead, hunit⟩ := hufacts
    by_cases h0 : String.mk (ds ++ u.data) = "0"
    · have hdata : ds ++ u.data = ['0'] := congrArg String.data h0
      have hsplit : ds = ['0'] ∧ u.data = [] := by
        cases ds with
        | nil => exact absurd rfl hds
        | cons a as =>
          rw [List.cons_append] at hdata
          have h1 := List.head_eq_of_cons_eq hdata
          have h2 := List.tail_eq_of_cons_eq hdata
          rcases List.append_eq_nil.mp h2 with ⟨rfl, h4⟩
          exact ⟨by rw [h1], h4⟩
      obtain ⟨hds0, _⟩ := hsplit
      rw [h0, hds0]
      have hp0 : parse_openshift_resource (some "0") = Except.ok 0 := rfl
      rw [hp0]
      have hd0 : digitsToNat ['0'] = 0 := by decide
      rw [hd0]
      norm_num
    · have hne : ¬(String.mk (ds ++ u.data) = "") := by
        intro h
        have hdata : ds ++ u.data = [] := congrArg String.data h
        exact hds (List.append_eq_nil.mp hdata).1
      rw [parse_some]
      rw [if_neg (by simp [hne, h0])]
      cases ds with
      | nil => exact absurd rfl hds
      | cons a as =>
        rw [show (String.mk ((a :: as) ++ u.data)).data = (a :: as) ++ u.data from rfl,
          List.cons_append, reSearch_digit_head (hdig a (List.mem_cons_self a as)),
          ← List.cons_append]
        obtain ⟨htake, hdrop⟩ := takeWhile_append_all hdig hhead
        rw [htake, hdrop]
        show (match unitAt u.data with
          | some u2 => Except.ok ((digitsToNat (a :: as) : ℚ) * suffixMult u2)
          | none => Except.ok (digitsToNat (a :: as) : ℚ)) =
          Except.ok ((digitsToNat (a :: as) : ℚ) * multOfSuffix u)
        rw [hunit]
        by_cases hu0 : u = ""
        · rw [if_pos hu0]
          show Except.ok ((digitsToNat (a :: as) : ℚ)) =
            Except.ok ((digitsToNat (a :: as) : ℚ) * multOfSuffix u)
          rw [multOfSuffix, if_pos hu0, mul_one]
        · rw [if_neg hu0]
          show Except.ok ((digitsToNat (a :: as) : ℚ) * suffixMult u) =
            Except.ok ((digitsToNat (a :: as) : ℚ) * multOfSuffix u)
          rw [multOfSuffix, if_neg hu0]
  · intro s h hne
    have h0 : ¬(s = "0") := by
      intro h0
      subst h0
      exact absurd (h '0' (by decide)) (by decide)
    rw [parse_some]
    rw [if_neg (by simp [hne, h0])]
    rw [reSearch_eq_none h]

/-- C7 witness: "250m" parses to 250 times the multiplier of m (that is,
one quarter) and "abc" raises a parse error. -/
theorem C7_resource_quantity_parsing_witness :
    parse_openshift_resource (some "250m")
      = Except.ok ((digitsToNat ['2', '5', '0'] : ℚ) * multOfSuffix "m") ∧
    parse_openshift_resource (some "abc")
      = Except.error "Unable to parse resource_value = abc" := by
  constructor
  · exact C7_resource_quantity_parsing.2.1 ['2', '5', '0'] "m"
      (by decide) (by decide) (by decide)
  · exact C7_resource_quantity_parsing.2.2 "abc" (by decide) (by decide)

/-- C7 counterexample: the claim says every non-conforming string raises a
parse error, but "1.5Gi" — which is not an integer magnitude followed by a
unit — parses successfully to 1, because the code matches the pattern with
re.search rather than anchoring it to the whole string. -/
theorem C7_counterexample :
    parse_openshift_resource (some "1.5Gi") = Except.ok 1 := by
  have h : parse_openshift_resource (some "1.5Gi")
      = Except.ok ((digitsToNat ['1'] : ℚ)) := rfl
  have h2 : digitsToNat ['1'] = 1 := by decide
  rw [h, h2]
  norm_num

/-! ## C8 -/

theorem initLoop_ok {l : List ContainerSpec} {a1 a2 a3 : ℚ} {v : ℚ × ℚ × ℚ}
    (h : initLoop l (a1, a2, a3) = Except.ok v) :
    v = (l.foldl (fun a c => max a (reqVal c "cpu")) a1,
         l.foldl (fun a c => max a (reqVal c "memory")) a2,
         l.foldl (fun a c => max a (reqVal c "nvidia.com/gpu")) a3) := by
  induction l generalizing a1 a2 a3 with
  | nil =>
    simp only [initLoop, List.foldl_nil] at h ⊢
    cases h
    rfl
  | cons c rest ih =>
    simp only [initLoop] at h
    cases hcv : parse_openshift_resource (reqLookup c "cpu") with
    | error e =>
      rw [hcv] at h
      exact Except.noConfusion ((rfl : (Except.error e : Except String (ℚ × ℚ × ℚ)) = _).trans h)
    | ok cv =>
      rw [hcv] at h
      cases hmv : parse_openshift_resource (reqLookup c "memory") with
      | error e =>
        rw [hmv] at h
        exact Except.noConfusion ((rfl : (Except.error e : Except String (ℚ × ℚ × ℚ)) = _).trans h)
      | ok mv =>
        rw [hmv] at h
        cases hgv : parse_openshift_resource (reqLookup c "nvidia.com/gpu") with
        | error e =>
          rw [hgv] at h
          exact Except.noConfusion
            ((rfl : (Except.error e : Except String (ℚ × ℚ × ℚ)) = _).trans h)
        | ok gv =>
          rw [hgv] at h
          have h2 : initLoop rest (max a1 cv, max a2 mv, max a3 gv) = Except.ok v := h
          have hc : reqVal c "cpu" = cv := by unfold reqVal; rw [hcv]; rfl
          have hm : reqVal c "memory" = mv := by unfold reqVal; rw [hmv]; rfl
          have hg : reqVal c "nvidia.com/gpu" = gv := by unfold reqVal; rw [hgv]; rfl
          rw [List.foldl_cons, List.foldl_cons, List.foldl_cons, hc, hm, hg]
          exact ih h2

theorem mainLoop_ok {l : List ContainerSpec} {a1 a2 a3 : ℚ} {v : ℚ × ℚ × ℚ}
    (h : mainLoop l (a1, a2, a3) = Except.ok v) :
    v = (l.foldl (fun a c => a + reqVal c "cpu") a1,
         l.foldl (fun a c => a + reqVal c "memory") a2,
         l.foldl (fun a c => a + gpuMainVal c) a3) := by
  induction l generalizing a1 a2 a3 with
  | nil =>
    simp only [mainLoop, List.foldl_nil] at h ⊢
    cases h
    rfl
  | cons c rest ih =>
    simp only [mainLoop] at h
    cases hcv : parse_openshift_resource (some ((reqLookup c "cpu").getD "0")) with
    | error e =>
      rw [hcv] at h
      exact Except.noConfusion ((rfl : (Except.error e : Except String (ℚ × ℚ × ℚ)) = _).trans h)
    | ok cv =>
      rw [hcv] at h
      cases hmv : parse_openshift_resource (some ((reqLookup c "memory").getD "0")) with
      | error e =>
        rw [hmv] at h
        exact Except.noConfusion ((rfl : (Except.error e : Except String (ℚ × ℚ × ℚ)) = _).trans h)
      | ok mv =>
        rw [hmv] at h
        cases hgv : pythonIntOf (reqLookup c "nvidia.com/gpu") with
        | error e =>
          rw [hgv] at h
          exact Except.noConfusion
            ((rfl : (Except.error e : Except String (ℚ × ℚ × ℚ)) = _).trans h)
        | ok gv =>
          rw [hgv] at h
          have h2 : mainLoop rest (a1 + cv, a2 + mv, a3 + gv) = Except.ok v := h
          have hc : reqVal c "cpu" = cv := by
            unfold reqVal
            cases hl : reqLookup c "cpu" with
            | none =>
              rw [hl] at hcv
              have hcv2 : Except.ok (ε := String) (0 : ℚ) = Except.ok cv := hcv
              cases hcv2
              rfl
            | some s =>
              rw [hl] at hcv
              have hcv2 : parse_openshift_resource (some s) = Except.ok cv := hcv
              rw [hcv2]
              rfl
          have hm : reqVal c "memory" = mv := by
            unfold reqVal
            cases hl : reqLookup c "memory" with
            | none =>
              rw [hl] at hmv
              have hmv2 : Except.ok (ε := String) (0 : ℚ) = Except.ok mv := hmv
              cases hmv2
              rfl
            | some s =>
              rw [hl] at hmv
              have hmv2 : parse_openshift_resource (some s) = Except.ok mv := hmv
              rw [hmv2]
              rfl
          have hg : gpuMainVal c = gv := by unfold gpuMainVal; rw [hgv]; rfl
          rw [List.foldl_cons, List.foldl_cons, List.foldl_cons, hc, hm, hg]
          exact ih h2

/-- C8 (amended): the Resource Request Calculator.  Whenever
`effective_pod_requests` succeeds on a pod with a spec, the computed triple
is, for each resource, the maximum of the largest single init-container
request and the sum over all main containers, with missing requests counted
as zero — where init-container requests and main-container cpu and memory
requests are resolved through the quantity-parsing contract, but the
main-container accelerator request is resolved through Python int() (so a
suffixed accelerator quantity makes the computation raise instead; see the
counterexample). -/
theorem C8_effective_requests (pod : Pod) (sp : PodSpec) (hsp : pod.spec = some sp)
    (v : ℚ × ℚ × ℚ) (hok : effective_pod_requests pod = Except.ok v) :
    v = (max (maxReq (sp.init_containers.getD []) (fun c => reqVal c "cpu"))
             (sumReq (sp.containers.getD []) (fun c => reqVal c "cpu")),
         max (maxReq (sp.init_containers.getD []) (fun c => reqVal c "memory"))
             (sumReq (sp.containers.getD []) (fun c => reqVal c "memory")),
         max (maxReq (sp.init_containers.getD []) (fun c => reqVal c "nvidia.com/gpu"))
             (sumReq (sp.containers.getD []) gpuMainVal)) := by
  simp only [effective_pod_requests, hsp] at hok
  cases hinit : initLoop (sp.init_containers.getD []) (0, 0, 0) with
  | error e =>
    rw [hinit] at hok
    exact Except.noConfusion ((rfl : (Except.error e : Except String (ℚ × ℚ × ℚ)) = _).trans hok)
  | ok itrip =>
    obtain ⟨icpu, imem, igpu⟩ := itrip
    rw [hinit] at hok
    cases hmain : mainLoop (sp.containers.getD []) (0, 0, 0) with
    | error e =>
      rw [hmain] at hok
      exact Except.noConfusion
        ((rfl : (Except.error e : Except String (ℚ × ℚ × ℚ)) = _).trans hok)
    | ok mtrip =>
      obtain ⟨cpu, mem, gpu⟩ := mtrip
      rw [hmain] at hok
      have hok2 : Except.ok (max cpu icpu, max mem imem, max gpu igpu)
          = Except.ok (ε := String) v := hok
      have hv : v = (max cpu icpu, max mem imem, max gpu igpu) := by
        cases hok2
        rfl
      have hi := initLoop_ok hinit
      have hm := mainLoop_ok hmain
      rw [Prod.mk.injEq, Prod.mk.injEq] at hi hm
      rw [hv, hi.1, hi.2.1, hi.2.2, hm.1, hm.2.1, hm.2.2]
      unfold maxReq sumReq
      rw [max_comm (a := List.foldl (fun a c => a + reqVal c "cpu") 0 (sp.containers.getD [])),
        max_comm (a := List.foldl (fun a c => a + reqVal c "memory") 0 (sp.containers.getD [])),
        max_comm (a := List.foldl (fun a c => a + gpuMainVal c) 0 (sp.containers.getD []))]

/-- C8 witness: on the pod with init cpu 2, main cpu 250m and main gpu 1,
the calculator returns (2, 0, 1), which is the max-of-init-max-and-main-sum
formula for each resource. -/
theorem C8_effective_requests_witness :
    effective_pod_requests podRequests = Except.ok (2, 0, 1) ∧
    ((2 : ℚ), (0 : ℚ), (1 : ℚ)) =
      (max (maxReq ((podRequests.spec.getD ⟨none, none, none⟩).init_containers.getD [])
              (fun c => reqVal c "cpu"))
           (sumReq ((podRequests.spec.getD ⟨none, none, none⟩).containers.getD [])
              (fun c => reqVal c "cpu")),
       max (maxReq ((podRequests.spec.getD ⟨none, none, none⟩).init_containers.getD [])
              (fun c => reqVal c "memory"))
           (sumReq ((podRequests.spec.getD ⟨none, none, none⟩).containers.getD [])
              (fun c => reqVal c "memory")),
       max (maxReq ((podRequests.spec.getD ⟨none, none, none⟩).init_containers.getD [])
              (fun c => reqVal c "nvidia.com/gpu"))
           (sumReq ((podRequests.spec.getD ⟨none, none, none⟩).containers.getD [])
              gpuMainVal)) := by
  have h1 : effective_pod_requests podRequests = Except.ok (2, 0, 1) := by
    have hr : effective_pod_requests podRequests
        = Except.ok (max (0 + (digitsToNat ['2', '5', '0'] : ℚ) * suffixMult "m")
              (max 0 (digitsToNat ['2'] : ℚ)),
            max (0 + 0) (max 0 0),
            max (0 + ((1 : Int) : ℚ)) (max 0 0)) := rfl
    rw [hr]
    have hd1 : digitsToNat ['2', '5', '0'] = 250 := by decide
    have hd2 : digitsToNat ['2'] = 2 := by decide
    have hd3 : suffixMult "m" = 1 / 1000 := rfl
    rw [hd1, hd2, hd3]
    norm_num
  exact ⟨h1, C8_effective_requests podRequests _ rfl _ h1⟩

/-- C8 counterexample: the claim says every quantity, including a main
container accelerator request, is resolved through the quantity-parsing
contract, under which "2Ki" denotes 2048; but the code resolves the main
container accelerator request with Python int(), so the computation raises
a ValueError on "2Ki" instead of computing 2048. -/
theorem C8_counterexample :
    effective_pod_requests podGpuKi
      = Except.error "invalid literal for int with base 10: 2Ki" ∧
    parse_openshift_resource (some "2Ki") = Except.ok 2048 := by
  constructor
  · decide
  · have h : parse_openshift_resource (some "2Ki")
        = Except.ok ((digitsToNat ['2'] : ℚ) * suffixMult "Ki") := rfl
    have hd : digitsToNat ['2'] = 2 := by decide
    have hs : suffixMult "Ki" = 2 ^ 10 := rfl
    rw [h, hd, hs]
    norm_num

/-! ## C1: supporting lemmas -/

theorem memB_addId_self {u : String} {l : List String} : memB u (addId l u) = true := by
  rw [memB_iff, mem_addId]
  exact Or.inr rfl

theorem memB_addId_ne {u v : String} (h : u ≠ v) {l : List String} :
    memB u (addId l v) = memB u l := by
  cases hb : memB u l with
  | false =>
    rw [memB_eq_false_iff] at hb ⊢
    rw [mem_addId]
    rintro (hc | hc)
    · exact hb hc
    · exact h hc
  | true =>
    rw [memB_iff] at hb ⊢
    rw [mem_addId]
    exact Or.inl hb

theorem memB_removeId_self {u : String} {l : List String} : memB u (removeId l u) = false := by
  rw [memB_eq_false_iff, mem_removeId]
  rintro ⟨_, hc⟩
  exact hc rfl

theorem memB_removeId_ne {u v : String} (h : u ≠ v) {l : List String} :
    memB u (removeId l v) = memB u l := by
  cases hb : memB u l with
  | false =>
    rw [memB_eq_false_iff] at hb ⊢
    rw [mem_removeId]
    rintro ⟨hc, _⟩
    exact hb hc
  | true =>
    rw [memB_iff] at hb ⊢
    rw [mem_removeId]
    exact ⟨hb, h⟩

theorem writesFor_append_ne {u : String} {w : EndWrite} (h : ¬(w.uid = u))
    {l : List EndWrite} : writesFor u (l ++ [w]) = writesFor u l := by
  simp [writesFor, List.filter_append, h]

theorem writesFor_append_self {u : String} {w : EndWrite} (h : w.uid = u)
    {l : List EndWrite} : writesFor u (l ++ [w]) = writesFor u l ++ [w] := by
  simp [writesFor, List.filter_append, h]

theorem realWritesFor_eq_filter {u : String} {l : List EndWrite} :
    realWritesFor u l = (writesFor u l).filter (fun w => !w.guessed) := by
  unfold realWritesFor writesFor
  rw [List.filter_filter]
  apply List.filter_congr
  intro w _
  rw [Bool.and_comm]

theorem dbEnd_insert_other {db : Db} {u uid : String} (hne : uid ≠ u)
    (ns name : String) (node : Option String) (cpu mem gpu : ℚ) (st : Option Int) :
    dbEnd (insert_new_pod db uid ns name node cpu mem gpu st) u = dbEnd db u := by
  unfold dbEnd
  rw [dbLookup_insert_other hne]

theorem dbEnd_update_other {db : Db} {u uid : String} (hne : uid ≠ u) (t : Int) (g : Bool) :
    dbEnd (update_pod_end_time db uid t g) u = dbEnd db u := by
  unfold dbEnd
  rw [dbLookup_update_other hne]

theorem dbEnd_insert_self_of_none {db : Db} {uid : String} (h : dbEnd db uid = none)
    (ns name : String) (node : Option String) (cpu mem gpu : ℚ) (st : Option Int) :
    dbEnd (insert_new_pod db uid ns name node cpu mem gpu st) uid = none := by
  unfold dbEnd at h ⊢
  cases hl : dbLookup db uid with
  | none => rw [dbLookup_insert_self_absent hl]; rfl
  | some r =>
    rw [hl] at h
    rw [dbLookup_insert hl]
    exact h

theorem noMoreStarts_cons {uid : String} {e : Event} {l : List Event}
    (h : NoMoreStartsB uid (e :: l) = true) :
    canStart uid e = false ∧ NoMoreStartsB uid l = true := by
  unfold NoMoreStartsB at h ⊢
  rw [List.all_cons, Bool.and_eq_true] at h
  exact ⟨by rw [← Bool.not_eq_true']; simpa using h.1, h.2⟩

theorem orderedForUid_cons {uid : String} {e : Event} {l : List Event}
    (h : OrderedForUidB uid (e :: l) = true) :
    (settles uid e = true → NoMoreStartsB uid l = true) ∧ OrderedForUidB uid l = true := by
  unfold OrderedForUidB at h
  rw [Bool.and_eq_true, Bool.or_eq_true] at h
  refine ⟨?_, h.2⟩
  intro hs
  rcases h.1 with h1 | h1
  · rw [Bool.not_eq_true'] at h1
    rw [hs] at h1
    cases h1
  · exact h1

/-- Case analysis of one stream-loop iteration: it leaves the state
unchanged, raises, fires the start-billing branch, or fires one of the two
settling branches. -/
theorem process_event_shape (now : Int) (st : WatchState) (ev : Event) :
    process_event now st ev = Except.ok st ∨
    (∃ e, process_event now st ev = Except.error e) ∨
    (canStart ev.pod.metadata.uid ev = true ∧
     memB ev.pod.metadata.uid st.seen_running = false ∧
     ∃ cpu mem gpu,
       process_event now st ev = Except.ok { st with
         db := insert_new_pod st.db ev.pod.metadata.uid ev.pod.metadata.nspace
           ev.pod.metadata.name (ev.pod.spec.bind PodSpec.node_name) cpu mem gpu
           (ev.pod.status.bind PodStatus.start_time),
         seen_running := addId st.seen_running ev.pod.metadata.uid }) ∨
    (settles ev.pod.metadata.uid ev = true ∧
     memB ev.pod.metadata.uid st.seen_running = true ∧
     ∃ t g,
       process_event now st ev = Except.ok { st with
         db := update_pod_end_time st.db ev.pod.metadata.uid t g,
         seen_running := removeId st.seen_running ev.pod.metadata.uid,
         finished_pods := addId st.finished_pods ev.pod.metadata.uid,
         log := st.log ++ [⟨ev.pod.metadata.uid, t, g⟩] }) := by
  simp only [process_event]
  split
  · exact Or.inl rfl
  · split
    · exact Or.inr (Or.inl ⟨_, rfl⟩)
    · split
      · next hc1 =>
        refine Or.inr (Or.inr (Or.inl ?_))
        simp only [Bool.and_eq_true] at hc1
        obtain ⟨⟨⟨⟨hety, _⟩, _⟩, hmem⟩, hph⟩ := hc1
        refine ⟨?_, ?_, _, _, _, rfl⟩
        · simp [canStart, hety, hph]
        · rw [Bool.not_eq_true'] at hmem
          exact hmem
      · split
        · next hc2 =>
          refine Or.inr (Or.inr (Or.inr ?_))
          simp only [Bool.and_eq_true] at hc2
          obtain ⟨⟨hety, hmem⟩, hph⟩ := hc2
          refine ⟨?_, hmem, _, _, rfl⟩
          simp [settles, hety, hph]
        · split
          · next hc3 =>
            refine Or.inr (Or.inr (Or.inr ?_))
            simp only [Bool.and_eq_true] at hc3
            obtain ⟨hety, hmem⟩ := hc3
            refine ⟨?_, hmem, _, _, rfl⟩
            simp [settles, hety]
          · exact Or.inl rfl

theorem stepEvent_shape (now : Int) (st : WatchState) (ev : Event) :
    stepEvent st (now, ev) = st ∨
    (canStart ev.pod.metadata.uid ev = true ∧
     memB ev.pod.metadata.uid st.seen_running = false ∧
     ∃ cpu mem gpu,
       stepEvent st (now, ev) = { st with
         db := insert_new_pod st.db ev.pod.metadata.uid ev.pod.metadata.nspace
           ev.pod.metadata.name (ev.pod.spec.bind PodSpec.node_name) cpu mem gpu
           (ev.pod.status.bind PodStatus.start_time),
         seen_running := addId st.seen_running ev.pod.metadata.uid }) ∨
    (settles ev.pod.metadata.uid ev = true ∧
     memB ev.pod.metadata.uid st.seen_running = true ∧
     ∃ t g,
       stepEvent st (now, ev) = { st with
         db := update_pod_end_time st.db ev.pod.metadata.uid t g,
         seen_running := removeId st.seen_running ev.pod.metadata.uid,
         finished_pods := addId st.finished_pods ev.pod.metadata.uid,
         log := st.log ++ [⟨ev.pod.metadata.uid, t, g⟩] }) := by
  rcases process_event_shape now st ev with h | ⟨e, h⟩ | ⟨hc, hm, cpu, mem, gpu, h⟩
    | ⟨hs, hm, t, g, h⟩
  · left; unfold stepEvent; rw [h]
  · left; unfold stepEvent; rw [h]
  · refine Or.inr (Or.inl ⟨hc, hm, cpu, mem, gpu, ?_⟩)
    unfold stepEvent; rw [h]
  · refine Or.inr (Or.inr ⟨hs, hm, t, g, ?_⟩)
    unfold stepEvent; rw [h]

theorem processEvents_cons {te : Int × Event} {rest : List (Int × Event)} {st : WatchState} :
    processEvents (te :: rest) st = processEvents rest (stepEvent st te) := rfl

/-- Once a uid is out of the billing index and no later event can re-start
it, the loop never writes for it again and never touches its record. -/
theorem watch_frozen (uid : String) (evs : List (Int × Event)) (st : WatchState)
    (hseen : memB uid st.seen_running = false)
    (hns : NoMoreStartsB uid (evs.map Prod.snd) = true) :
    memB uid (processEvents evs st).seen_running = false ∧
    writesFor uid (processEvents evs st).log = writesFor uid st.log ∧
    dbLookup (processEvents evs st).db uid = dbLookup st.db uid := by
  induction evs generalizing st with
  | nil => exact ⟨hseen, rfl, rfl⟩
  | cons te rest ih =>
    obtain ⟨n, e⟩ := te
    rw [List.map_cons] at hns
    obtain ⟨hce, hns2⟩ := noMoreStarts_cons hns
    have hfacts : memB uid (stepEvent st (n, e)).seen_running = false ∧
        writesFor uid (stepEvent st (n, e)).log = writesFor uid st.log ∧
        dbLookup (stepEvent st (n, e)).db uid = dbLookup st.db uid := by
      rcases stepEvent_shape n st e with h | ⟨hc, hm, cpu, mem, gpu, h⟩ | ⟨hs, hm, t, g, h⟩
      · rw [h]; exact ⟨hseen, rfl, rfl⟩
      · have hne : e.pod.metadata.uid ≠ uid := by
          intro hequ
          rw [hequ] at hc
          rw [hc] at hce
          cases hce
        rw [h]
        exact ⟨by rw [memB_addId_ne (Ne.symm hne)]; exact hseen, rfl,
          dbLookup_insert_other hne _ _ _ _ _ _ _⟩
      · have hne : e.pod.metadata.uid ≠ uid := by
          intro hequ
          rw [hequ] at hm
          rw [hm] at hseen
          cases hseen
        rw [h]
        exact ⟨by rw [memB_removeId_ne (Ne.symm hne)]; exact hseen,
          writesFor_append_ne hne, dbLookup_update_other hne t g⟩
    obtain ⟨hf1, hf2, hf3⟩ := hfacts
    have hrec := ih (stepEvent st (n, e)) hf1 hns2
    rw [processEvents_cons]
    exact ⟨hrec.1, hrec.2.1.trans hf2, hrec.2.2.trans hf3⟩

/-- Invariant induction for the stream loop: before any settling write the
uid has no write in the log and its record (if in billing) is open; after
the single settling write the uid is out of billing and, by the feed order
assumption, can never re-enter it. -/
theorem watch_aux (uid : String) (evs : List (Int × Event)) (st : WatchState)
    (hord : OrderedForUidB uid (evs.map Prod.snd) = true)
    (hinv :
      (writesFor uid st.log = [] ∧
       (memB uid st.seen_running = true → dbEnd st.db uid = none) ∧
       (dbEnd st.db uid ≠ none → NoMoreStartsB uid (evs.map Prod.snd) = true)) ∨
      ((writesFor uid st.log).length ≤ 1 ∧ memB uid st.seen_running = false ∧
       NoMoreStartsB uid (evs.map Prod.snd) = true)) :
    (writesFor uid (processEvents evs st).log).length ≤ 1 := by
  induction evs generalizing st with
  | nil =>
    rcases hinv with ⟨h1, _, _⟩ | ⟨h1, _, _⟩
    · show (writesFor uid st.log).length ≤ 1
      rw [h1]
      simp
    · exact h1
  | cons te rest ih =>
    obtain ⟨n, e⟩ := te
    rw [List.map_cons] at hord
    obtain ⟨hord1, hord2⟩ := orderedForUid_cons hord
    rw [processEvents_cons]
    rcases hinv with ⟨hw, hopen, hclosed⟩ | ⟨hw, hnm, hns⟩
    · rw [List.map_cons] at hclosed
      rcases stepEvent_shape n st e with h | ⟨hc, hm, cpu, mem, gpu, h⟩ | ⟨hs, hm, t, g, h⟩
      · rw [h]
        apply ih _ hord2
        left
        refine ⟨hw, hopen, fun hdb => (noMoreStarts_cons (hclosed hdb)).2⟩
      · by_cases hequ : e.pod.metadata.uid = uid
        · have hdbnone : dbEnd st.db uid = none := by
            by_contra hdb
            obtain ⟨hce, _⟩ := noMoreStarts_cons (hclosed hdb)
            rw [hequ] at hc
            rw [hc] at hce
            cases hce
          rw [h]
          apply ih _ hord2
          left
          rw [hequ]
          have hafter : dbEnd (insert_new_pod st.db uid e.pod.metadata.nspace
              e.pod.metadata.name (e.pod.spec.bind PodSpec.node_name) cpu mem gpu
              (e.pod.status.bind PodStatus.start_time)) uid = none :=
            dbEnd_insert_self_of_none hdbnone _ _ _ _ _ _ _
          exact ⟨hw, fun _ => hafter, fun hdb => absurd hafter hdb⟩
        · rw [h]
          apply ih _ hord2
          left
          refine ⟨hw, ?_, ?_⟩
          · intro hmem
            rw [memB_addId_ne (fun hcc => hequ hcc.symm)] at hmem
            rw [dbEnd_insert_other hequ]
            exact hopen hmem
          · intro hdb
            rw [dbEnd_insert_other hequ] at hdb
            exact (noMoreStarts_cons (hclosed hdb)).2
      · by_cases hequ : e.pod.metadata.uid = uid
        · have hsu : settles uid e = true := by rw [← hequ]; exact hs
          have hnm2 := hord1 hsu
          rw [h]
          apply ih _ hord2
          right
          refine ⟨?_, ?_, hnm2⟩
          · rw [writesFor_append_self hequ, hw]
            simp
          · rw [hequ, memB_removeId_self]
        · rw [h]
          apply ih _ hord2
          left
          refine ⟨?_, ?_, ?_⟩
          · rw [writesFor_append_ne hequ]
            exact hw
          · intro hmem
            rw [memB_removeId_ne (fun hcc => hequ hcc.symm)] at hmem
            rw [dbEnd_update_other hequ]
            exact hopen hmem
          · intro hdb
            rw [dbEnd_update_other hequ] at hdb
            exact (noMoreStarts_cons (hclosed hdb)).2
    · rw [List.map_cons] at hns
      obtain ⟨hce, hns2⟩ := noMoreStarts_cons hns
      rcases stepEvent_shape n st e with h | ⟨hc, hm, cpu, mem, gpu, h⟩ | ⟨hs, hm, t, g, h⟩
      · rw [h]
        exact ih _ hord2 (Or.inr ⟨hw, hnm, hns2⟩)
      · have hne : e.pod.metadata.uid ≠ uid := by
          intro hequ
          rw [hequ] at hc
          rw [hc] at hce
          cases hce
        rw [h]
        apply ih _ hord2
        right
        exact ⟨hw, by rw [memB_addId_ne (Ne.symm hne)]; exact hnm, hns2⟩
      · have hne : e.pod.metadata.uid ≠ uid := by
          intro hequ
          rw [hequ] at hm
          rw [hm] at hnm
          cases hnm
        rw [h]
        apply ih _ hord2
        right
        refine ⟨?_, ?_, hns2⟩
        · rw [writesFor_append_ne hne]
          exact hw
        · rw [memB_removeId_ne (Ne.symm hne)]
          exact hnm

/-! ## C1 -/

/-- C1 (amended): no double billing under the per-uid delivery order the
spec assumes of the feed (section 5).  For every event sequence that is
per-uid ordered for a given uid (no created-or-updated starting-phase event
after a settling event for that uid), starting from a state whose log has no
write for the uid, in which a uid in billing has an open record, and in
which a uid with a closed record receives no starting event at all: the loop
issues at most one real (non-estimated) end-time write for the uid, at most
one end-time write in total (so an end time, once set by the loop, is never
overwritten by a later event), and a record closed before the loop keeps its
end time. -/
theorem C1_no_double_billing (uid : String) (evs : List (Int × Event)) (st : WatchState)
    (hord : OrderedForUidB uid (evs.map Prod.snd) = true)
    (hlog : writesFor uid st.log = [])
    (hopen : memB uid st.seen_running = true → dbEnd st.db uid = none)
    (hclosed : dbEnd st.db uid ≠ none → NoMoreStartsB uid (evs.map Prod.snd) = true) :
    (realWritesFor uid (processEvents evs st).log).length ≤ 1 ∧
    (writesFor uid (processEvents evs st).log).length ≤ 1 ∧
    (dbEnd st.db uid ≠ none → dbEnd (processEvents evs st).db uid = dbEnd st.db uid) := by
  have h2 : (writesFor uid (processEvents evs st).log).length ≤ 1 :=
    watch_aux uid evs st hord (Or.inl ⟨hlog, hopen, hclosed⟩)
  refine ⟨?_, h2, ?_⟩
  · rw [realWritesFor_eq_filter]
    exact le_trans (List.length_filter_le _ _) h2
  · intro hdb
    have hseen : memB uid st.seen_running = false := by
      cases hb : memB uid st.seen_running with
      | false => rfl
      | true => exact absurd (hopen hb) hdb
    have hfr := watch_frozen uid evs st hseen (hclosed hdb)
    unfold dbEnd
    rw [hfr.2.2]

/-- C1 witness: the ordered two-event trace (start billing at Running,
settle at Succeeded) satisfies the hypotheses and yields at most one write. -/
theorem C1_no_double_billing_witness :
    (realWritesFor "u1" (processEvents
        [(10, ⟨"MODIFIED", podRunning⟩), (11, ⟨"MODIFIED", podDone200⟩)]
        emptyWatchState).log).length ≤ 1 ∧
    (writesFor "u1" (processEvents
        [(10, ⟨"MODIFIED", podRunning⟩), (11, ⟨"MODIFIED", podDone200⟩)]
        emptyWatchState).log).length ≤ 1 ∧
    (dbEnd emptyWatchState.db "u1" ≠ none → dbEnd (processEvents
        [(10, ⟨"MODIFIED", podRunning⟩), (11, ⟨"MODIFIED", podDone200⟩)]
        emptyWatchState).db "u1" = dbEnd emptyWatchState.db "u1") :=
  C1_no_double_billing "u1"
    [(10, ⟨"MODIFIED", podRunning⟩), (11, ⟨"MODIFIED", podDone200⟩)]
    emptyWatchState (by decide) rfl (by decide) (fun h => absurd rfl h)

/-- C1 counterexample: over an arbitrary event sequence the claim fails.
After the pod settles with a real end time 200, a redelivered Running event
re-enters it into billing and a second Succeeded event writes a second real
end time 300, silently overwriting the first: two real end-time writes for
one uid, and the record ends at 300. -/
theorem C1_counterexample :
    (realWritesFor "u1" (processEvents doubleBillEvents emptyWatchState).log).length = 2 ∧
    ¬((realWritesFor "u1" (processEvents doubleBillEvents emptyWatchState).log).length ≤ 1) ∧
    (processEvents doubleBillEvents emptyWatchState).log =
      [⟨"u1", 200, false⟩, ⟨"u1", 300, false⟩] ∧
    dbEnd (processEvents doubleBillEvents emptyWatchState).db "u1" = some 300 := by
  refine ⟨by decide, by decide, by decide, by decide⟩

/-! ## C2, C5, C10: supporting lemmas on the store and reconciliation -/

theorem dbLookup_of_mem_nodup {db : Db} (hnodup : (dbKeys db).Nodup) {u : String}
    {r : DbRecord} (h : (u, r) ∈ db) : dbLookup db u = some r := by
  induction db with
  | nil => cases h
  | cons kv rest ih =>
    rw [dbLookup_cons]
    rcases List.mem_cons.mp h with rfl | h2
    · rw [if_pos rfl]
    · have hk : ¬ kv.1 = u := by
        intro hequ
        have h3 : u ∈ dbKeys rest := List.mem_map.mpr ⟨(u, r), h2, rfl⟩
        rw [dbKeys, List.map_cons, List.nodup_cons] at hnodup
        exact hnodup.1 (hequ ▸ h3)
      rw [if_neg hk]
      exact ih (by rw [dbKeys, List.map_cons, List.nodup_cons] at hnodup; exact hnodup.2) h2

theorem mem_running_open {db : Db} (hnodup : (dbKeys db).Nodup) {u : String}
    (h : u ∈ get_running_pods db) : ∃ r, dbLookup db u = some r ∧ r.end_time = none := by
  unfold get_running_pods at h
  obtain ⟨kv, hkv, rfl⟩ := List.mem_map.mp h
  obtain ⟨hmem, hend⟩ := List.mem_filter.mp hkv
  refine ⟨kv.2, dbLookup_of_mem_nodup hnodup hmem, ?_⟩
  rwa [Option.isNone_iff_eq_none] at hend

theorem mem_finished_closed {db : Db} (hnodup : (dbKeys db).Nodup) {u : String}
    (h : u ∈ get_finished_pods db) : closedIn db u := by
  unfold get_finished_pods at h
  obtain ⟨kv, hkv, rfl⟩ := List.mem_map.mp h
  obtain ⟨hmem, hend⟩ := List.mem_filter.mp hkv
  exact ⟨kv.2, dbLookup_of_mem_nodup hnodup hmem, hend⟩

theorem mem_running_keys {db : Db} {u : String} (h : u ∈ get_running_pods db) :
    u ∈ dbKeys db := by
  unfold get_running_pods at h
  obtain ⟨kv, hkv, rfl⟩ := List.mem_map.mp h
  exact List.mem_map.mpr ⟨kv, (List.mem_filter.mp hkv).1, rfl⟩

theorem get_running_nodup {db : Db} (hnodup : (dbKeys db).Nodup) :
    (get_running_pods db).Nodup := by
  unfold get_running_pods
  have hsub : List.Sublist (List.map Prod.fst
      (db.filter (fun kv => kv.2.end_time.isNone))) (dbKeys db) :=
    List.Sublist.map Prod.fst (List.filter_sublist db)
  exact List.Nodup.sublist hsub hnodup

theorem closedIn_update {db : Db} {u u2 : String} {t : Int} {g : Bool}
    (h : closedIn db u) : closedIn (update_pod_end_time db u2 t g) u := by
  obtain ⟨r, hr, hend⟩ := h
  by_cases hequ : u2 = u
  · subst hequ
    exact ⟨_, dbLookup_update_self hr t g, rfl⟩
  · exact ⟨r, by rw [dbLookup_update_other hequ]; exact hr, hend⟩

theorem closedIn_insert {db : Db} {u uid : String} (h : closedIn db u)
    (ns name : String) (node : Option String) (cpu mem gpu : ℚ) (st : Option Int) :
    closedIn (insert_new_pod db uid ns name node cpu mem gpu st) u := by
  obtain ⟨r, hr, hend⟩ := h
  exact ⟨r, dbLookup_insert hr uid ns name node cpu mem gpu st, hend⟩

theorem closedIn_update_self_of_isSome {db : Db} {u : String}
    (h : (dbLookup db u).isSome) (t : Int) (g : Bool) :
    closedIn (update_pod_end_time db u t g) u := by
  cases hl : dbLookup db u with
  | none => rw [hl] at h; cases h
  | some r => exact ⟨_, dbLookup_update_self hl t g, rfl⟩

theorem mem_keys_update {db : Db} {u uid : String} {t : Int} {g : Bool}
    (h : u ∈ dbKeys db) : u ∈ dbKeys (update_pod_end_time db uid t g) := by
  rwa [dbKeys_update]

/-- `process_zombie` never touches the record of a different uid. -/
theorem process_zombie_lookup_other {now : Int} {st : ReconState} {u2 u : String}
    (hne : u2 ≠ u) : dbLookup (process_zombie now st u2).db u = dbLookup st.db u := by
  cases hmeta : get_pod_metadata st.db u2 with
  | none => simp only [process_zombie, hmeta]
  | some meta =>
    simp only [process_zombie, hmeta]
    by_cases hend : meta.end_time.isSome
    · rw [if_pos hend]
    · rw [if_neg hend]
      exact dbLookup_update_other hne now true

/-- The zombie step closes an open record with the shared instant. -/
theorem process_zombie_establish {now : Int} {st : ReconState} {u : String} {r : DbRecord}
    (hr : dbLookup st.db u = some r) (hend : r.end_time = none) :
    dbLookup (process_zombie now st u).db u
      = some { r with end_time := some now, end_time_guessed := true } := by
  have hmeta : get_pod_metadata st.db u = some r := hr
  simp only [process_zombie, hmeta]
  rw [if_neg (by rw [hend]; simp)]
  exact dbLookup_update_self hr now true

/-- The zombie step on an already-closed record only moves the uid between
the in-memory sets: the store is left untouched. -/
theorem process_zombie_closed_noop {now : Int} {st : ReconState} {u : String} {r : DbRecord}
    (hr : dbLookup st.db u = some r) {t : Int} (hend : r.end_time = some t) :
    process_zombie now st u = { st with
      seen_running := removeId st.seen_running u,
      finished_pods := addId st.finished_pods u } := by
  have hmeta : get_pod_metadata st.db u = some r := hr
  simp only [process_zombie, hmeta]
  rw [if_pos (by rw [hend]; rfl)]

theorem process_zombie_inv {db0 : Db} {now : Int} {st : ReconState} {u2 : String}
    (h : ReconInv db0 st) : ReconInv db0 (process_zombie now st u2) := by
  obtain ⟨h0, h1, h2, h3⟩ := h
  cases hmeta : get_pod_metadata st.db u2 with
  | none => simp only [process_zombie, hmeta]; exact ⟨h0, h1, h2, h3⟩
  | some meta =>
    simp only [process_zombie, hmeta]
    by_cases hend : meta.end_time.isSome
    · rw [if_pos hend]
      refine ⟨h0, ?_, ?_, ?_⟩
      · intro u hu
        exact h1 u (mem_removeId.mp hu).1
      · intro u hu
        rcases h2 u hu with hs | hf
        · by_cases hequ : u = u2
          · subst hequ
            exact Or.inr (mem_addId.mpr (Or.inr rfl))
          · exact Or.inl (mem_removeId.mpr ⟨hs, hequ⟩)
        · exact Or.inr (mem_addId.mpr (Or.inl hf))
      · intro u hu
        rcases mem_addId.mp hu with hf | rfl
        · exact h3 u hf
        · exact ⟨meta, hmeta, hend⟩
    · rw [if_neg hend]
      refine ⟨?_, ?_, ?_, ?_⟩
      · intro u hu
        exact mem_keys_update (h0 u hu)
      · intro u hu
        exact mem_keys_update (h1 u (mem_removeId.mp hu).1)
      · intro u hu
        rcases h2 u hu with hs | hf
        · by_cases hequ : u = u2
          · subst hequ
            exact Or.inr (mem_addId.mpr (Or.inr rfl))
          · exact Or.inl (mem_removeId.mpr ⟨hs, hequ⟩)
        · exact Or.inr (mem_addId.mpr (Or.inl hf))
      · intro u hu
        rcases mem_addId.mp hu with hf | rfl
        · exact closedIn_update (h3 u hf)
        · exact closedIn_update_self_of_isSome (by rw [show dbLookup st.db u = some meta from hmeta]; rfl) now true

/-- Case analysis of one backfill iteration: it leaves the state unchanged,
closes a stale record, or creates and immediately closes a backfilled one. -/
theorem backfill_pod_shape {now : Int} {st : ReconState} {kv : String × Pod} {st2 : ReconState}
    (hok : backfill_pod now st kv = Except.ok st2) :
    st2 = st ∨
    (memB kv.2.metadata.uid st.seen_running = true ∧
     ∃ t g, st2 = { st with
       db := update_pod_end_time st.db kv.2.metadata.uid t g,
       seen_running := removeId st.seen_running kv.2.metadata.uid,
       finished_pods := addId st.finished_pods kv.2.metadata.uid }) ∨
    (∃ s cpu mem gpu t g, st2 = { st with
       db := update_pod_end_time (insert_new_pod st.db kv.2.metadata.uid kv.2.metadata.nspace
         kv.2.metadata.name (kv.2.spec.bind PodSpec.node_name) cpu mem gpu (some s))
         kv.2.metadata.uid t g,
       finished_pods := addId st.finished_pods kv.2.metadata.uid }) := by
  simp only [backfill_pod] at hok
  split at hok
  · cases hok
    exact Or.inl rfl
  · split at hok
    · cases hok
    · split at hok
      · split at hok
        · next hseen =>
          cases hok
          exact Or.inr (Or.inl ⟨hseen, _, _, rfl⟩)
        · split at hok
          · cases hok
            exact Or.inl rfl
          · cases hok
            exact Or.inr (Or.inr ⟨_, _, _, _, _, _, rfl⟩)
      · cases hok
        exact Or.inl rfl

theorem backfill_pod_closed_pres {now : Int} {st : ReconState} {kv : String × Pod}
    {st2 : ReconState} {u : String} (h : closedIn st.db u)
    (hok : backfill_pod now st kv = Except.ok st2) : closedIn st2.db u := by
  rcases backfill_pod_shape hok with rfl | ⟨_, t, g, rfl⟩ | ⟨s, cpu, mem, gpu, t, g, rfl⟩
  · exact h
  · exact closedIn_update h
  · exact closedIn_update (closedIn_insert h _ _ _ _ _ _ _)

theorem backfill_pod_lookup_other {now : Int} {st : ReconState} {kv : String × Pod}
    {st2 : ReconState} {u : String} (hne : kv.2.metadata.uid ≠ u)
    (hok : backfill_pod now st kv = Except.ok st2) :
    dbLookup st2.db u = dbLookup st.db u := by
  rcases backfill_pod_shape hok with rfl | ⟨_, t, g, rfl⟩ | ⟨s, cpu, mem, gpu, t, g, rfl⟩
  · rfl
  · exact dbLookup_update_other hne t g
  · rw [show ({ st with
        db := update_pod_end_time (insert_new_pod st.db kv.2.metadata.uid kv.2.metadata.nspace
          kv.2.metadata.name (kv.2.spec.bind PodSpec.node_name) cpu mem gpu (some s))
          kv.2.metadata.uid t g,
        finished_pods := addId st.finished_pods kv.2.metadata.uid } : ReconState).db
      = update_pod_end_time (insert_new_pod st.db kv.2.metadata.uid kv.2.metadata.nspace
          kv.2.metadata.name (kv.2.spec.bind PodSpec.node_name) cpu mem gpu (some s))
          kv.2.metadata.uid t g from rfl]
    rw [dbLookup_update_other hne, dbLookup_insert_other hne]

theorem backfill_pod_inv {db0 : Db} {now : Int} {st : ReconState} {kv : String × Pod}
    {st2 : ReconState} (h : ReconInv db0 st)
    (hok : backfill_pod now st kv = Except.ok st2) : ReconInv db0 st2 := by
  obtain ⟨h0, h1, h2, h3⟩ := h
  rcases backfill_pod_shape hok with rfl | ⟨hseen, t, g, rfl⟩ | ⟨s, cpu, mem, gpu, t, g, rfl⟩
  · exact ⟨h0, h1, h2, h3⟩
  · refine ⟨?_, ?_, ?_, ?_⟩
    · intro u hu
      exact mem_keys_update (h0 u hu)
    · intro u hu
      exact mem_keys_update (h1 u (mem_removeId.mp hu).1)
    · intro u hu
      rcases h2 u hu with hs | hf
      · by_cases hequ : u = kv.2.metadata.uid
        · subst hequ
          exact Or.inr (mem_addId.mpr (Or.inr rfl))
        · exact Or.inl (mem_removeId.mpr ⟨hs, hequ⟩)
      · exact Or.inr (mem_addId.mpr (Or.inl hf))
    · intro u hu
      rcases mem_addId.mp hu with hf | rfl
      · exact closedIn_update (h3 u hf)
      · refine closedIn_update_self_of_isSome ?_ t g
        have := h1 _ (memB_iff.mp hseen)
        exact dbLookup_isSome_of_mem_keys this
  · refine ⟨?_, ?_, ?_, ?_⟩
    · intro u hu
      exact mem_keys_update (dbKeys_insert_subset (h0 u hu))
    · intro u hu
      exact mem_keys_update (dbKeys_insert_subset (h1 u hu))
    · intro u hu
      rcases h2 u hu with hs | hf
      · exact Or.inl hs
      · exact Or.inr (mem_addId.mpr (Or.inl hf))
    · intro u hu
      rcases mem_addId.mp hu with hf | rfl
      · exact closedIn_update (closedIn_insert (h3 u hf) _ _ _ _ _ _ _)
      · exact closedIn_update_self_of_isSome
          (dbLookup_insert_self_isSome _ _ _ _ _ _ _) t g

/-- At a non-ignored terminal pod, a successful backfill step either closes
the record or establishes the skipped-backfill condition (no record in the
initial store, no start time). -/
theorem backfill_pod_establish {db0 : Db} {now : Int} {st : ReconState} {kv : String × Pod}
    {st2 : ReconState} (hInv : ReconInv db0 st)
    (hok : backfill_pod now st kv = Except.ok st2)
    (hns : ignoredNs kv.2.metadata.nspace = false)
    (hph : phaseIn (kv.2.status.bind PodStatus.phase) TERMINAL_PHASES = true) :
    closedIn st2.db kv.2.metadata.uid ∨
      (kv.2.metadata.uid ∉ dbKeys db0 ∧ kv.2.status.bind PodStatus.start_time = none) := by
  obtain ⟨h0, h1, h2, h3⟩ := hInv
  simp only [backfill_pod] at hok
  rw [if_neg (by simp [hns])] at hok
  cases heff : effective_pod_requests kv.2 with
  | error e =>
    rw [heff] at hok
    exact Except.noConfusion ((rfl : (Except.error e : Except String ReconState) = _).trans hok)
  | ok trip =>
    obtain ⟨cpu, mem, gpu⟩ := trip
    simp only [heff] at hok
    by_cases hfin : memB kv.2.metadata.uid st.finished_pods
    · rw [if_neg (by simp [hph, hfin])] at hok
      cases hok
      exact Or.inl (h3 _ (memB_iff.mp hfin))
    · rw [if_pos (by simp [hph, hfin])] at hok
      by_cases hseen : memB kv.2.metadata.uid st.seen_running
      · rw [if_pos hseen] at hok
        cases hok
        refine Or.inl (closedIn_update_self_of_isSome ?_ _ _)
        exact dbLookup_isSome_of_mem_keys (h1 _ (memB_iff.mp hseen))
      · rw [if_neg hseen] at hok
        cases hstart : kv.2.status.bind PodStatus.start_time with
        | none =>
          simp only [hstart] at hok
          cases hok
          refine Or.inr ⟨?_, rfl⟩
          intro hk
          rcases h2 _ hk with hs | hf
          · exact hseen (memB_iff.mpr hs)
          · exact hfin (memB_iff.mpr hf)
        | some s =>
          simp only [hstart] at hok
          cases hok
          exact Or.inl (closedIn_update_self_of_isSome
            (dbLookup_insert_self_isSome _ _ _ _ _ _ _) _ _)

theorem backfill_pod_ignored {now : Int} {st : ReconState} {kv : String × Pod}
    (hns : ignoredNs kv.2.metadata.nspace = true) :
    backfill_pod now st kv = Except.ok st := by
  simp only [backfill_pod]
  rw [if_pos hns]

theorem foldlM_cons_ok {α β : Type} {step : α → β → Except String α} {b : β} {l : List β}
    {s out : α} (hok : (b :: l).foldlM step s = Except.ok out) :
    ∃ mid, step s b = Except.ok mid ∧ l.foldlM step mid = Except.ok out := by
  rw [List.foldlM_cons] at hok
  cases hstep : step s b with
  | error e =>
    rw [hstep] at hok
    exact Except.noConfusion ((rfl : (Except.error e : Except String α) = _).trans hok)
  | ok s2 =>
    rw [hstep] at hok
    exact ⟨s2, rfl, hok⟩

/-- Fold over a duplicate-free list: each element's own step establishes `Q`
for it out of the untouched condition `R`, and steps on other elements
preserve both. -/
theorem foldl_forall_nodup {α β : Type} (step : α → β → α) (Q R : β → α → Prop) (l : List β)
    (hRpres : ∀ s2 b b2, b ≠ b2 → R b s2 → R b (step s2 b2))
    (hQ : ∀ s2 b, R b s2 → Q b (step s2 b))
    (hQpres : ∀ s2 b b2, b ≠ b2 → Q b s2 → Q b (step s2 b2)) :
    l.Nodup → ∀ s : α, (∀ b ∈ l, R b s) → ∀ b ∈ l, Q b (l.foldl step s) := by
  induction l with
  | nil => intro _ s _ b hb; cases hb
  | cons a t ih =>
    intro hnd s hR0 b hb
    rw [List.nodup_cons] at hnd
    rw [List.foldl_cons]
    rcases List.mem_cons.mp hb with rfl | hb2
    · have hq1 : Q b (step s b) := hQ s b (hR0 b (List.mem_cons_self b t))
      exact foldl_inv step (Q b) t (step s b)
        (fun s2 b2 hb3 hq => hQpres s2 b b2 (fun hequ => hnd.1 (hequ ▸ hb3)) hq) hq1
    · refine ih hnd.2 (step s a) ?_ b hb2
      intro b2 hb3
      exact hRpres s b2 a (fun hequ => hnd.1 (hequ ▸ hb3))
        (hR0 b2 (List.mem_cons_of_mem a hb3))

theorem clusterMap_key {pods : List Pod} :
    ∀ kv ∈ clusterMap pods, kv.1 = kv.2.metadata.uid := by
  unfold clusterMap
  refine foldl_inv _
    (fun m : List (String × Pod) => ∀ kv ∈ m, kv.1 = kv.2.metadata.uid) pods [] ?_ ?_
  · intro m p _ hm
    unfold dictInsert
    split
    · intro kv hkv
      obtain ⟨src, hsrc, hequ⟩ := List.mem_map.mp hkv
      by_cases hk : src.1 = p.metadata.uid
      · rw [if_pos hk] at hequ
        rw [← hequ]
      · rw [if_neg hk] at hequ
        rw [← hequ]
        exact hm src hsrc
    · intro kv hkv
      rcases List.mem_append.mp hkv with h1 | h1
      · exact hm kv h1
      · rw [List.mem_singleton.mp h1]
  · intro kv hkv
    cases hkv

theorem startup_reconciliation_eq (now : Int) (snapshot : List Pod) (db : Db) :
    startup_reconciliation now snapshot db =
      (clusterMap snapshot).foldlM (backfill_pod now)
        ((zombiesOf db snapshot).foldl (process_zombie now)
          ⟨db, get_running_pods db, get_finished_pods db⟩) := rfl

/-- Every zombie of the pass starts open in the store and ends with exactly
its original record closed at the shared instant `now`, estimated. -/
theorem recon_zombie_closed (now : Int) (snapshot : List Pod) (db : Db) (out : ReconState)
    (hnodup : (dbKeys db).Nodup)
    (hok : startup_reconciliation now snapshot db = Except.ok out) :
    ∀ u ∈ zombiesOf db snapshot,
      ∃ r, dbLookup db u = some r ∧ r.end_time = none ∧
        dbLookup out.db u = some { r with end_time := some now, end_time_guessed := true } := by
  rw [startup_reconciliation_eq] at hok
  intro u hu
  have huNot : u ∉ (clusterMap snapshot).map Prod.fst := by
    have h2 := (List.mem_filter.mp hu).2
    rw [Bool.not_eq_true'] at h2
    exact memB_eq_false_iff.mp h2
  have hznd : (zombiesOf db snapshot).Nodup :=
    List.Nodup.filter _ (get_running_nodup hnodup)
  have hQ1 := foldl_forall_nodup (process_zombie now)
    (fun b st => ∃ r, dbLookup db b = some r ∧ r.end_time = none ∧
      dbLookup st.db b = some { r with end_time := some now, end_time_guessed := true })
    (fun b st => ∃ r, dbLookup db b = some r ∧ r.end_time = none ∧
      dbLookup st.db b = some r)
    (zombiesOf db snapshot)
    (fun s2 b b2 hne ⟨r, h1, h2, h3⟩ =>
      ⟨r, h1, h2, by rw [process_zombie_lookup_other (Ne.symm hne)]; exact h3⟩)
    (fun s2 b ⟨r, h1, h2, h3⟩ => ⟨r, h1, h2, process_zombie_establish h3 h2⟩)
    (fun s2 b b2 hne ⟨r, h1, h2, h3⟩ =>
      ⟨r, h1, h2, by rw [process_zombie_lookup_other (Ne.symm hne)]; exact h3⟩)
    hznd ⟨db, get_running_pods db, get_finished_pods db⟩
    (fun b hb => by
      obtain ⟨r, hr, hrend⟩ := mem_running_open hnodup (List.mem_filter.mp hb).1
      exact ⟨r, hr, hrend, hr⟩)
    u hu
  obtain ⟨r, h1, h2, h3⟩ := hQ1
  refine ⟨r, h1, h2, ?_⟩
  refine foldlM_ok_inv (backfill_pod now)
    (fun st => dbLookup st.db u
      = some { r with end_time := some now, end_time_guessed := true })
    (clusterMap snapshot) _ out ?_ h3 hok
  intro s2 kv s3 hkv hI hstep
  have hne : kv.2.metadata.uid ≠ u := by
    intro hequ
    apply huNot
    rw [← hequ, ← clusterMap_key kv hkv]
    exact List.mem_map.mpr ⟨kv, hkv, rfl⟩
  rw [backfill_pod_lookup_other hne hstep]
  exact hI

/-- The reconciliation invariant holds of the returned state. -/
theorem recon_inv (now : Int) (snapshot : List Pod) (db : Db) (out : ReconState)
    (hnodup : (dbKeys db).Nodup)
    (hok : startup_reconciliation now snapshot db = Except.ok out) : ReconInv db out := by
  rw [startup_reconciliation_eq] at hok
  have h0 : ReconInv db ⟨db, get_running_pods db, get_finished_pods db⟩ :=
    ⟨fun u h => h, fun u h => mem_running_keys h,
     fun u h => mem_keys_iff_running_or_finished.mp h,
     fun u h => mem_finished_closed hnodup h⟩
  have h1 : ReconInv db ((zombiesOf db snapshot).foldl (process_zombie now)
      ⟨db, get_running_pods db, get_finished_pods db⟩) :=
    foldl_inv _ (ReconInv db) _ _ (fun s2 b _ h => process_zombie_inv h) h0
  exact foldlM_ok_inv _ (ReconInv db) _ _ _
    (fun s2 b s3 _ h hst => backfill_pod_inv h hst) h1 hok

/-! ## C2 -/

/-- C2 (amended): coverage postcondition of startup reconciliation.  For a
well-formed store (unique uids), when the reconciler returns: (a) every
instance of the snapshot map outside the excluded namespaces whose phase is
terminal either has a closed record in the store, or had no record in the
store and carries no start time (in which case the backfill is skipped with
a logged error); (b) every id in the store's open set either appears in the
snapshot or has a closed record. -/
theorem C2_coverage (now : Int) (snapshot : List Pod) (db : Db) (out : ReconState)
    (hnodup : (dbKeys db).Nodup)
    (hok : startup_reconciliation now snapshot db = Except.ok out) :
    (∀ kv ∈ clusterMap snapshot,
      ignoredNs kv.2.metadata.nspace = false →
      phaseIn (kv.2.status.bind PodStatus.phase) TERMINAL_PHASES = true →
      closedIn out.db kv.2.metadata.uid ∨
        (kv.2.metadata.uid ∉ dbKeys db ∧ kv.2.status.bind PodStatus.start_time = none)) ∧
    (∀ u ∈ get_running_pods db,
      u ∈ (clusterMap snapshot).map Prod.fst ∨ closedIn out.db u) := by
  constructor
  · intro kv hkv hns hph
    obtain ⟨l1, l2, hsplit⟩ := List.append_of_mem hkv
    rw [startup_reconciliation_eq, hsplit] at hok
    obtain ⟨mid1, hok1, hok2⟩ := foldlM_append_ok _ _ _ _ _ hok
    obtain ⟨mid2, hstep, hok3⟩ := foldlM_cons_ok hok2
    have hinv0 : ReconInv db ⟨db, get_running_pods db, get_finished_pods db⟩ :=
      ⟨fun u h => h, fun u h => mem_running_keys h,
       fun u h => mem_keys_iff_running_or_finished.mp h,
       fun u h => mem_finished_closed hnodup h⟩
    have hinvz : ReconInv db ((zombiesOf db snapshot).foldl (process_zombie now)
        ⟨db, get_running_pods db, get_finished_pods db⟩) :=
      foldl_inv _ (ReconInv db) _ _ (fun s2 b _ h => process_zombie_inv h) hinv0
    have hinv1 : ReconInv db mid1 :=
      foldlM_ok_inv _ (ReconInv db) _ _ _
        (fun s2 b s3 _ h hst => backfill_pod_inv h hst) hinvz hok1
    rcases backfill_pod_establish hinv1 hstep hns hph with hclosed | hskip
    · left
      exact foldlM_ok_inv _ (fun st => closedIn st.db kv.2.metadata.uid) l2 _ _
        (fun s2 b s3 _ h hst => backfill_pod_closed_pres h hst) hclosed hok3
    · exact Or.inr hskip
  · intro u hu
    by_cases hc : u ∈ (clusterMap snapshot).map Prod.fst
    · exact Or.inl hc
    · right
      have hu_z : u ∈ zombiesOf db snapshot := by
        refine List.mem_filter.mpr ⟨hu, ?_⟩
        rw [Bool.not_eq_true', memB_eq_false_iff]
        exact hc
      obtain ⟨r, _, _, hlook⟩ := recon_zombie_closed now snapshot db out hnodup hok u hu_z
      exact ⟨_, hlook, rfl⟩

/-- C2 witness: a store with open z1 (absent from the snapshot) and a
snapshot with terminal x2 (absent from the store, start time present):
after reconciliation both have closed records. -/
theorem C2_coverage_witness :
    (∀ kv ∈ clusterMap [podFailedStart7],
      ignoredNs kv.2.metadata.nspace = false →
      phaseIn (kv.2.status.bind PodStatus.phase) TERMINAL_PHASES = true →
      closedIn reconOutW.db kv.2.metadata.uid ∨
        (kv.2.metadata.uid ∉ dbKeys dbOpenZ ∧
          kv.2.status.bind PodStatus.start_time = none)) ∧
    (∀ u ∈ get_running_pods dbOpenZ,
      u ∈ (clusterMap [podFailedStart7]).map Prod.fst ∨ closedIn reconOutW.db u) :=
  C2_coverage 50 [podFailedStart7] dbOpenZ reconOutW (by decide) (by decide)

/-- C2 counterexample: the claim (and the spec's coverage invariant) says
every snapshot instance with a terminal phase has a closed record in the
store after reconciliation; but a terminal pod with no start time that is
absent from the store is skipped — after the pass the store still has no
record for it at all. -/
theorem C2_counterexample :
    startup_reconciliation 50 [podFailedNoStart] [] = Except.ok ⟨[], [], []⟩ ∧
    ignoredNs podFailedNoStart.metadata.nspace = false ∧
    phaseIn (podFailedNoStart.status.bind PodStatus.phase) TERMINAL_PHASES = true ∧
    ¬ closedIn ([] : Db) podFailedNoStart.metadata.uid := by
  refine ⟨by decide, by decide, by decide, ?_⟩
  rintro ⟨r, hr, _⟩
  cases hr

/-! ## C5 -/

/-- C5: zombie handling.  (a) Every zombie of the pass — open in a
well-formed store, absent from the snapshot — ends with its original record
closed by exactly the single reconciliation instant `now`, shared by all
zombies, with the estimated flag true, all other fields untouched.  (b) The
zombie step on a record that already has an end time only moves the uid from
the billing set to the settled set: the store is not rewritten. -/
theorem C5_zombie_handling (now : Int) (snapshot : List Pod) (db : Db) (out : ReconState)
    (hnodup : (dbKeys db).Nodup)
    (hok : startup_reconciliation now snapshot db = Except.ok out) :
    (∀ u ∈ zombiesOf db snapshot,
      ∃ r, dbLookup db u = some r ∧ r.end_time = none ∧
        dbLookup out.db u = some { r with end_time := some now, end_time_guessed := true }) ∧
    (∀ (st : ReconState) (u : String) (r : DbRecord) (t : Int),
      dbLookup st.db u = some r → r.end_time = some t →
      process_zombie now st u = { st with
        seen_running := removeId st.seen_running u,
        finished_pods := addId st.finished_pods u }) :=
  ⟨recon_zombie_closed now snapshot db out hnodup hok,
   fun _ _ _ _ hr hend => process_zombie_closed_noop hr hend⟩

/-- C5 witness: z1 is a zombie of the pass on `dbOpenZ` against the empty
snapshot and ends closed at the shared instant 50 with the estimated flag;
and the zombie step on the already-closed record c1 leaves the store as is. -/
theorem C5_zombie_handling_witness :
    (∃ r, dbLookup dbOpenZ "z1" = some r ∧ r.end_time = none ∧
      dbLookup reconOutZ.db "z1"
        = some { r with end_time := some 50, end_time_guessed := true }) ∧
    process_zombie 50 stClosedC1 "c1" = { stClosedC1 with
      seen_running := removeId stClosedC1.seen_running "c1",
      finished_pods := addId stClosedC1.finished_pods "c1" } := by
  have h := C5_zombie_handling 50 [] dbOpenZ reconOutZ (by decide) (by decide)
  exact ⟨h.1 "z1" (by decide),
    h.2 stClosedC1 "c1" ⟨"demo", "pc", none, 0, 0, 0, some 1, some 9, false⟩ 9 rfl rfl⟩

/-! ## C10 -/

/-- C10: the zombie-closing pass applies to every open record regardless of
namespace — an open record absent from the snapshot is closed even when its
namespace is ignored — whereas the backfill pass and the streaming loop drop
events and snapshot entries in ignored namespaces before acting. -/
theorem C10_zombie_ignores_namespace (now : Int) (snapshot : List Pod) (db : Db)
    (out : ReconState) (hnodup : (dbKeys db).Nodup)
    (hok : startup_reconciliation now snapshot db = Except.ok out) :
    (∀ u ∈ zombiesOf db snapshot, ∀ r, dbLookup db u = some r →
      ignoredNs r.nspace = true → closedIn out.db u) ∧
    (∀ (st : ReconState) (kv : String × Pod), ignoredNs kv.2.metadata.nspace = true →
      backfill_pod now st kv = Except.ok st) ∧
    (∀ (st : WatchState) (ev : Event), ignoredNs ev.pod.metadata.nspace = true →
      process_event now st ev = Except.ok st) := by
  refine ⟨?_, fun st kv h => backfill_pod_ignored h, fun st ev h => ?_⟩
  · intro u hu r _ _
    obtain ⟨r2, _, _, hlook⟩ := recon_zombie_closed now snapshot db out hnodup hok u hu
    exact ⟨_, hlook, rfl⟩
  · simp only [process_event]
    rw [if_pos h]

/-- C10 witness: the open record k1 in the ignored namespace kube-system is
closed by the zombie pass, while a backfill entry and a stream event in an
ignored namespace are dropped without any state change. -/
theorem C10_zombie_ignores_namespace_witness :
    closedIn reconOutK.db "k1" ∧
    backfill_pod 60 ⟨[], [], []⟩ ("i1", podIgnoredNs) = Except.ok ⟨[], [], []⟩ ∧
    process_event 60 emptyWatchState ⟨"ADDED", podIgnoredNs⟩ = Except.ok emptyWatchState := by
  have h := C10_zombie_ignores_namespace 60 [] dbKube reconOutK (by decide) (by decide)
  exact ⟨h.1 "k1" (by decide) ⟨"kube-system", "pk", some "n", 0, 0, 0, some 3, none, false⟩
      (by decide) (by decide),
    h.2.1 ⟨[], [], []⟩ ("i1", podIgnoredNs) (by decide),
    h.2.2 emptyWatchState ⟨"ADDED", podIgnoredNs⟩ (by decide)⟩

end PodWatcher
